import Mathlib

/-!
Shallow embedding of the Soroban tokenized-vault contract (`src/lib.rs`),
together with the mock asset-token custodian that the repository's test
suite registers as the vault's underlying asset (`src/test.rs`, `mod token`).

Modelling conventions:
* Rust `i128` values are `Int` with explicit range checks; the build traps
  on arithmetic overflow, so an out-of-range intermediate result aborts the
  invocation (`VRes.trap`).
* Persistent storage entries are `Option`-valued fields (`none` = key
  absent), mirroring `get(..).unwrap_or(default)` reads.
* `require_auth` is an external capability assumed granted (the tests run
  under `mock_all_auths`); the event sink is a fire-and-forget collaborator
  and is not part of the state.
* A contract function returning `Err` and a panic/trap both abort the
  invocation; the Soroban host then rolls back storage (see `commit`).
-/

set_option maxRecDepth 10000

/-- Contract addresses (abstract identities). -/
abbrev Addr := Nat

/-- Largest `i128` value (`i128::MAX`), also the unlimited-allowance sentinel. -/
def i128Max : Int := 2 ^ 127 - 1

/-- Smallest `i128` value (`i128::MIN`). -/
def i128Min : Int := -(2 ^ 127)

/-- `x` is representable as a Rust `i128`. -/
def inI128 (x : Int) : Prop := i128Min ≤ x ∧ x ≤ i128Max

instance (x : Int) : Decidable (inI128 x) := by
  unfold inI128
  infer_instance

/-- Checked `i128` arithmetic: `none` models the overflow trap. -/
def chk (x : Int) : Option Int := if inI128 x then some x else none

/-- Rust `i128` division (`/`, truncation toward zero); traps on division by
    zero and on `i128::MIN / -1`. -/
def rdiv (a b : Int) : Option Int :=
  if b = 0 then none
  else if a = i128Min ∧ b = -1 then none
  else some (a.tdiv b)

/-- Rust `i128` remainder (`%`, sign of the dividend); same trap conditions. -/
def rrem (a b : Int) : Option Int :=
  if b = 0 then none
  else if a = i128Min ∧ b = -1 then none
  else some (a.tmod b)

/-- The contract's `Error` enumeration (`src/lib.rs`). -/
inductive Error where
  | ZeroAssets
  | ZeroShares
  | InsufficientBalance
  | InsufficientAllowance
  | InvalidAddress
deriving DecidableEq, Repr

/-- Outcome of running contract code: normal return, contract `Err`, or a
    trap (panic, overflow, failed `unwrap`, or callee panic). -/
inductive VRes (α : Type) where
  | ok : α → VRes α
  | err : Error → VRes α
  | trap : VRes α
deriving DecidableEq, Repr

/-- The vault contract's instance storage: one field per `DataKey` family. -/
structure VaultStore where
  asset : Option Addr
  name : Option String
  symbol : Option String
  decimals : Option Nat
  totalSupply : Option Int
  balances : Addr → Option Int
  allowances : Addr → Addr → Option Int

/-- Storage of the mock asset token (`src/test.rs`, `mod token`): balances
    plus a total-supply entry.  It stands in for the external custodian. -/
structure TokenStore where
  balances : Addr → Option Int
  totalSupply : Option Int

/-- The world a vault invocation sees: the vault's own address
    (`env.current_contract_address()`), its storage, and the custodian's. -/
structure World where
  self : Addr
  vault : VaultStore
  token : TokenStore

/-- The empty vault storage of a freshly deployed, never-touched contract. -/
def emptyVault : VaultStore :=
  { asset := none, name := none, symbol := none, decimals := none,
    totalSupply := none, balances := fun _ => none, allowances := fun _ _ => none }

namespace Vault

/-- `balance_of`: stored balance or the `unwrap_or(0)` default. -/
def balance_of (s : VaultStore) (account : Addr) : Int :=
  (s.balances account).getD 0

/-- `allowance`: stored allowance or the `unwrap_or(0)` default. -/
def allowance (s : VaultStore) (owner spender : Addr) : Int :=
  (s.allowances owner spender).getD 0

/-- `total_supply`: stored supply or the `unwrap_or(0)` default. -/
def total_supply (s : VaultStore) : Int :=
  s.totalSupply.getD 0

/-- `name`: stored name or the `unwrap_or("Vault")` default. -/
def name (s : VaultStore) : String :=
  s.name.getD "Vault"

/-- `symbol`: stored symbol or the `unwrap_or("VAULT")` default. -/
def symbol (s : VaultStore) : String :=
  s.symbol.getD "VAULT"

/-- `decimals`: stored decimals or the `unwrap_or(18)` default. -/
def decimals (s : VaultStore) : Nat :=
  s.decimals.getD 18

/-- `asset`: the stored asset address; `unwrap()` of an absent key panics,
    so the caller must handle `none` as a trap. -/
def asset (s : VaultStore) : Option Addr :=
  s.asset

/-- Write a balance entry (`storage.set(DataKey::Balance(a), v)`). -/
def setBal (s : VaultStore) (a : Addr) (v : Int) : VaultStore :=
  { s with balances := Function.update s.balances a (some v) }

/-- Write an allowance entry (`storage.set(DataKey::Allowance(o, sp), v)`). -/
def setAllow (s : VaultStore) (o sp : Addr) (v : Int) : VaultStore :=
  { s with allowances := fun o' sp' =>
      if o' = o ∧ sp' = sp then some v else s.allowances o' sp' }

end Vault

namespace Token

/-- Mock token `balance` query (`unwrap_or(0)`). -/
def balance (t : TokenStore) (account : Addr) : Int :=
  (t.balances account).getD 0

/-- Mock token `transfer`: panics (`none`) when `from`'s balance is below
    `amount`, otherwise debits `fr` and credits `dst`. -/
def transfer (t : TokenStore) (fr dst : Addr) (amount : Int) : Option TokenStore :=
  let fb := balance t fr
  if fb < amount then none
  else
    match chk (fb - amount) with
    | none => none
    | some d =>
      let t1 : TokenStore := { t with balances := Function.update t.balances fr (some d) }
      let tb := balance t1 dst
      match chk (tb + amount) with
      | none => none
      | some c => some { t1 with balances := Function.update t1.balances dst (some c) }

end Token

/-- The shared rounding kernel of both conversion functions
    (`let result = p / d; if round_up && p % d > 0 { result + 1 } else { result }`):
    truncating `i128` division with an optional +1 when rounding up on a
    positive remainder.  `none` is an arithmetic trap. -/
def divRound (p d : Int) (round_up : Bool) : Option Int :=
  match rdiv p d with
  | none => none
  | some q =>
    match rrem p d with
    | none => none
    | some m => if round_up ∧ m > 0 then chk (q + 1) else some q

namespace Vault

/-- `total_assets`: reads the asset address (panics when uninitialized) and
    queries the custodian for the vault's own balance. -/
def total_assets (w : World) : VRes Int :=
  match w.vault.asset with
  | none => .trap
  | some _ => .ok (Token.balance w.token w.self)

/-- `convert_to_shares_internal` (`src/lib.rs:351`): bootstrap 1:1 when
    `supply == 0 || total == 0`, otherwise `(assets * supply) / total` in
    `i128`, adding 1 when rounding up and the remainder is positive.
    `none` is a trap (uninitialized asset, or `i128` overflow). -/
def convert_to_shares_internal (w : World) (assets : Int) (round_up : Bool) : Option Int :=
  let supply := total_supply w.vault
  match w.vault.asset with
  | none => none
  | some _ =>
    let total := Token.balance w.token w.self
    if supply = 0 ∨ total = 0 then some assets
    else
      match chk (assets * supply) with
      | none => none
      | some p => divRound p total round_up

/-- `convert_to_assets_internal` (`src/lib.rs:367`): mirror image of
    `convert_to_shares_internal` with `(shares * total) / supply`. -/
def convert_to_assets_internal (w : World) (shares : Int) (round_up : Bool) : Option Int :=
  let supply := total_supply w.vault
  match w.vault.asset with
  | none => none
  | some _ =>
    let total := Token.balance w.token w.self
    if supply = 0 ∨ total = 0 then some shares
    else
      match chk (shares * total) with
      | none => none
      | some p => divRound p supply round_up

/-- Public `convert_to_shares` (round down). -/
def convert_to_shares (w : World) (assets : Int) : Option Int :=
  convert_to_shares_internal w assets false

/-- Public `convert_to_assets` (round down). -/
def convert_to_assets (w : World) (shares : Int) : Option Int :=
  convert_to_assets_internal w shares false

/-- `preview_deposit` (round down). -/
def preview_deposit (w : World) (assets : Int) : Option Int :=
  convert_to_shares_internal w assets false

/-- `preview_mint` (round up). -/
def preview_mint (w : World) (shares : Int) : Option Int :=
  convert_to_assets_internal w shares true

/-- `preview_withdraw` (round up). -/
def preview_withdraw (w : World) (assets : Int) : Option Int :=
  convert_to_shares_internal w assets true

/-- `preview_redeem` (round down). -/
def preview_redeem (w : World) (shares : Int) : Option Int :=
  convert_to_assets_internal w shares false

end Vault

/-- Sequencing of internal steps: an `Err` or a trap propagates together
    with the storage as the aborting code left it (the host has not yet
    rolled anything back at this level). -/
def andThen {α β : Type} (r : World × VRes α) (f : World → α → World × VRes β) :
    World × VRes β :=
  match r with
  | (w, .ok a) => f w a
  | (w, .err e) => (w, .err e)
  | (w, .trap) => (w, .trap)

namespace Vault

/-- `transfer_internal` (`src/lib.rs:300`): fails `InsufficientBalance` when
    `from`'s balance is below `amount`, otherwise debits `fr` and credits
    `dst` (no sign check on `amount`). -/
def transfer_internal (w : World) (fr dst : Addr) (amount : Int) : World × VRes Unit :=
  let fb := balance_of w.vault fr
  if fb < amount then (w, .err .InsufficientBalance)
  else
    match chk (fb - amount) with
    | none => (w, .trap)
    | some d =>
      let w1 : World := { w with vault := setBal w.vault fr d }
      let tb := balance_of w1.vault dst
      match chk (tb + amount) with
      | none => (w1, .trap)
      | some c => ({ w1 with vault := setBal w1.vault dst c }, .ok ())

/-- `mint_internal` (`src/lib.rs:319`): credits `account` and increases the
    total supply by the same `amount`. -/
def mint_internal (w : World) (account : Addr) (amount : Int) : World × VRes Unit :=
  let b := balance_of w.vault account
  match chk (b + amount) with
  | none => (w, .trap)
  | some nb =>
    let w1 : World := { w with vault := setBal w.vault account nb }
    let ts := total_supply w1.vault
    match chk (ts + amount) with
    | none => (w1, .trap)
    | some nts => ({ w1 with vault := { w1.vault with totalSupply := some nts } }, .ok ())

/-- `burn_internal` (`src/lib.rs:332`): fails `InsufficientBalance` when
    `account`'s balance is below `amount`, otherwise debits `account` and
    decreases the total supply by `amount`. -/
def burn_internal (w : World) (account : Addr) (amount : Int) : World × VRes Unit :=
  let b := balance_of w.vault account
  if b < amount then (w, .err .InsufficientBalance)
  else
    match chk (b - amount) with
    | none => (w, .trap)
    | some nb =>
      let w1 : World := { w with vault := setBal w.vault account nb }
      let ts := total_supply w1.vault
      match chk (ts - amount) with
      | none => (w1, .trap)
      | some nts => ({ w1 with vault := { w1.vault with totalSupply := some nts } }, .ok ())

/-- Public `initialize` (`src/lib.rs:34`): fails `InvalidAddress` when the
    asset key is already present, otherwise stores the metadata and a zero
    total supply (pre-existing balance/allowance entries are untouched). -/
def initVault (w : World) (assetAddr : Addr) (nm sym : String) (dec : Nat) :
    World × VRes Unit :=
  if w.vault.asset.isSome then (w, .err .InvalidAddress)
  else
    ({ w with vault :=
        { asset := some assetAddr, name := some nm, symbol := some sym,
          decimals := some dec, totalSupply := some 0,
          balances := w.vault.balances, allowances := w.vault.allowances } },
     .ok ())

/-- Public `transfer` (`src/lib.rs:78`): `require_auth` then
    `transfer_internal`, returning `true`. -/
def transfer (w : World) (fr dst : Addr) (amount : Int) : World × VRes Bool :=
  andThen (transfer_internal w fr dst amount) (fun w1 _ => (w1, .ok true))

/-- Public `approve` (`src/lib.rs:84`): unconditionally overwrites the
    allowance entry (no sign check, no failure mode). -/
def approve (w : World) (fr spender : Addr) (amount : Int) : World × VRes Bool :=
  ({ w with vault := setAllow w.vault fr spender amount }, .ok true)

/-- Public `transfer_from` (`src/lib.rs:95`): fails `InsufficientAllowance`
    when `allowance(fr, spender) < amount`; decrements the allowance unless
    it equals `i128::MAX`; then runs `transfer_internal`. -/
def transfer_from (w : World) (spender fr dst : Addr) (amount : Int) : World × VRes Bool :=
  let al := allowance w.vault fr spender
  if al < amount then (w, .err .InsufficientAllowance)
  else
    let step : World × VRes Unit :=
      if al = i128Max then (w, .ok ())
      else
        match chk (al - amount) with
        | none => (w, .trap)
        | some v => ({ w with vault := setAllow w.vault fr spender v }, .ok ())
    andThen step (fun w1 _ =>
      andThen (transfer_internal w1 fr dst amount) (fun w2 _ => (w2, .ok true)))

/-- Public `deposit` (`src/lib.rs:166`).  Note that `caller` is
    `env.current_contract_address()` — the vault itself — so the custodian
    transfer moves `assets` from the vault's own token balance to itself. -/
def deposit (w : World) (assets : Int) (receiver : Addr) : World × VRes Int :=
  if assets ≤ 0 then (w, .err .ZeroAssets)
  else
    match convert_to_shares_internal w assets false with
    | none => (w, .trap)
    | some shares =>
      if shares ≤ 0 then (w, .err .ZeroShares)
      else
        match w.vault.asset with
        | none => (w, .trap)
        | some _ =>
          match Token.transfer w.token w.self w.self assets with
          | none => (w, .trap)
          | some t1 =>
            andThen (mint_internal { w with token := t1 } receiver shares)
              (fun w2 _ => (w2, .ok shares))

/-- Public `mint` (`src/lib.rs:193`): symmetric to `deposit` with the share
    amount as input and a rounded-up asset cost. -/
def mint (w : World) (shares : Int) (receiver : Addr) : World × VRes Int :=
  if shares ≤ 0 then (w, .err .ZeroShares)
  else
    match convert_to_assets_internal w shares true with
    | none => (w, .trap)
    | some assets =>
      if assets ≤ 0 then (w, .err .ZeroAssets)
      else
        match w.vault.asset with
        | none => (w, .trap)
        | some _ =>
          match Token.transfer w.token w.self w.self assets with
          | none => (w, .trap)
          | some t1 =>
            andThen (mint_internal { w with token := t1 } receiver shares)
              (fun w2 _ => (w2, .ok assets))

/-- Public `withdraw` (`src/lib.rs:220`): validates, spends the allowance
    when the caller (the vault address) is not `owner`, burns the shares,
    then pays `assets` out of the custodian to `receiver`. -/
def withdraw (w : World) (assets : Int) (receiver owner : Addr) : World × VRes Int :=
  let caller := w.self
  if assets ≤ 0 then (w, .err .ZeroAssets)
  else
    match convert_to_shares_internal w assets true with
    | none => (w, .trap)
    | some shares =>
      if shares ≤ 0 then (w, .err .ZeroShares)
      else
        let spend : World × VRes Unit :=
          if caller ≠ owner then
            let al := allowance w.vault owner caller
            if al < shares then (w, .err .InsufficientAllowance)
            else if al = i128Max then (w, .ok ())
            else
              match chk (al - shares) with
              | none => (w, .trap)
              | some v => ({ w with vault := setAllow w.vault owner caller v }, .ok ())
          else (w, .ok ())
        andThen spend (fun w1 _ =>
          andThen (burn_internal w1 owner shares) (fun w2 _ =>
            match w2.vault.asset with
            | none => (w2, .trap)
            | some _ =>
              match Token.transfer w2.token w2.self receiver assets with
              | none => (w2, .trap)
              | some t3 => ({ w2 with token := t3 }, .ok shares)))

/-- Public `redeem` (`src/lib.rs:260`): symmetric to `withdraw` with the
    share amount as input and a rounded-down asset payout. -/
def redeem (w : World) (shares : Int) (receiver owner : Addr) : World × VRes Int :=
  let caller := w.self
  if shares ≤ 0 then (w, .err .ZeroShares)
  else
    match convert_to_assets_internal w shares false with
    | none => (w, .trap)
    | some assets =>
      if assets ≤ 0 then (w, .err .ZeroAssets)
      else
        let spend : World × VRes Unit :=
          if caller ≠ owner then
            let al := allowance w.vault owner caller
            if al < shares then (w, .err .InsufficientAllowance)
            else if al = i128Max then (w, .ok ())
            else
              match chk (al - shares) with
              | none => (w, .trap)
              | some v => ({ w with vault := setAllow w.vault owner caller v }, .ok ())
          else (w, .ok ())
        andThen spend (fun w1 _ =>
          andThen (burn_internal w1 owner shares) (fun w2 _ =>
            match w2.vault.asset with
            | none => (w2, .trap)
            | some _ =>
              match Token.transfer w2.token w2.self receiver assets with
              | none => (w2, .trap)
              | some t3 => ({ w2 with token := t3 }, .ok assets)))

end Vault

/-- Modelled from the spec: the Soroban host executes each invocation as a
    transaction — when the contract returns an `Err` or traps, every storage
    change the invocation made is rolled back (spec sections 5 and 7).  The
    host-level result therefore keeps the pre-call world on failure. -/
def commit {α : Type} (w : World) (r : World × VRes α) : World × VRes α :=
  match r with
  | (w', .ok a) => (w', .ok a)
  | (_, .err e) => (w, .err e)
  | (_, .trap) => (w, .trap)

-- sanity checks on the arithmetic model
example : rdiv (-10) 3 = some (-3) := by decide
example : rrem (-10) 3 = some (-1) := by decide
example : rdiv 10 3 = some 3 := by decide
example : chk (2 ^ 130) = none := by decide

/-! ## The spec's conversion algorithm (for refinement claims)

The following two definitions follow the WORDS of spec section 4.2, not the
source: bootstrap identity when `supply == 0` or `total == 0`, otherwise the
floor of the exact quotient, plus 1 exactly when rounding up and the
division has a nonzero remainder.  They use unbounded integers — the spec's
algorithm has no overflow. -/

/-- Spec section 4.2: `toShares = floor(assets * supply / total)`, ceiling
    when `roundUp`. -/
def specToShares (supply total assets : Int) (roundUp : Bool) : Int :=
  if supply = 0 ∨ total = 0 then assets
  else
    let q := Int.fdiv (assets * supply) total
    if roundUp ∧ Int.fmod (assets * supply) total ≠ 0 then q + 1 else q

/-- Spec section 4.2: `toAssets = floor(shares * total / supply)`, ceiling
    when `roundUp`. -/
def specToAssets (supply total shares : Int) (roundUp : Bool) : Int :=
  if supply = 0 ∨ total = 0 then shares
  else
    let q := Int.fdiv (shares * total) supply
    if roundUp ∧ Int.fmod (shares * total) supply ≠ 0 then q + 1 else q

/-! ## Concrete worlds for scenarios, counterexamples and witnesses -/

/-- The C4 scenario world: vault at address 0 freshly initialized over the
    mock token (asset address 5), total supply 0; the custodian holds 1000
    tokens for the depositor (address 1) and none for the vault — exactly
    the setup of `test_vault_deposit` in `src/test.rs`. -/
def w4 : World :=
  { self := 0,
    vault := { asset := some 5, name := some "Test Vault", symbol := some "TVAULT",
               decimals := some 18, totalSupply := some 0,
               balances := fun _ => none, allowances := fun _ _ => none },
    token := { balances := fun a => if a = 1 then some 1000 else none,
               totalSupply := some 1000000 } }

/-- Variant of `w4` in which the vault itself already holds 1000 custodian
    tokens, so the self-transfer inside `deposit` does not run out of funds. -/
def w4f : World :=
  { w4 with token := { balances := fun a => if a = 0 then some 1000 else none,
                       totalSupply := some 1000 } }

/-- Initialized world with share supply 2 and custodian balance 3 (for the
    C2 rounding counterexample). -/
def w2 : World :=
  { self := 0,
    vault := { emptyVault with asset := some 5, totalSupply := some 2 },
    token := { balances := fun a => if a = 0 then some 3 else none,
               totalSupply := some 3 } }

/-- Initialized world with share supply `2^100` and custodian balance
    `2^100` (both valid `i128` values; for the C6 overflow counterexample). -/
def w6 : World :=
  { self := 0,
    vault := { emptyVault with asset := some 5, totalSupply := some (2 ^ 100) },
    token := { balances := fun a => if a = 0 then some (2 ^ 100) else none,
               totalSupply := some (2 ^ 100) } }

/-! ## C10 -/

/-- C10: on a vault on which `initialize` has never run (fresh storage with
    no keys), the queries `name`, `symbol`, `decimals`, `total_supply`,
    `balance_of` and `allowance` are total and return the fallback defaults
    "Vault", "VAULT", 18, 0, 0 and 0; `asset` is the absent key whose
    `unwrap()` panics, and hence `total_assets` is the query that fails. -/
theorem C10_uninitialized_query_defaults :
    Vault.name emptyVault = "Vault" ∧
    Vault.symbol emptyVault = "VAULT" ∧
    Vault.decimals emptyVault = 18 ∧
    Vault.total_supply emptyVault = 0 ∧
    (∀ a : Addr, Vault.balance_of emptyVault a = 0) ∧
    (∀ o sp : Addr, Vault.allowance emptyVault o sp = 0) ∧
    Vault.asset emptyVault = none ∧
    (∀ (self : Addr) (tok : TokenStore),
      Vault.total_assets { self := self, vault := emptyVault, token := tok } = .trap) := by
  refine ⟨rfl, rfl, rfl, rfl, fun a => rfl, fun o sp => rfl, rfl, fun self tok => rfl⟩

/-! ## C4 -/

/-- C4 (code bug): in the spec's scenario — a freshly initialized vault with
    zero total supply and zero custodian balance — `deposit(100, receiver)`
    does not succeed: the code's custodian pull is a transfer from the vault
    to itself (`caller` is `env.current_contract_address()`), which panics
    for lack of funds, so the call traps.  Moreover, even when the vault is
    pre-funded so that the self-transfer succeeds (`w4f`), the deposit mints
    100 shares while the custodian balance — and hence `total_assets` —
    stays at 1000, not 100: the self-transfer can never pull assets in. -/
theorem C4_deposit_scenario_fails :
    Vault.deposit w4 100 1 = (w4, .trap) ∧
    Vault.deposit w4f 100 1 = ((Vault.deposit w4f 100 1).1, .ok 100) ∧
    Vault.total_supply (Vault.deposit w4f 100 1).1.vault = 100 ∧
    Vault.total_assets (Vault.deposit w4f 100 1).1 = .ok 1000 := by
  refine ⟨rfl, rfl, rfl, rfl⟩

/-! ## C5 -/

/-- C5 (code bug): starting from the initialized state `w4`, the completed
    public operation `transfer(1, 2, -5)` succeeds (there is no sign check)
    and stores the negative balance `-5` for account 2; likewise
    `approve(1, 2, -7)` succeeds and stores the negative allowance `-7`.
    The spec's invariant that all stored Balance and Allowance values are
    non-negative is therefore violated in a reachable state. -/
theorem C5_negative_balance_reachable :
    (Vault.transfer w4 1 2 (-5)).2 = .ok true ∧
    (Vault.transfer w4 1 2 (-5)).1.vault.balances 2 = some (-5) ∧
    Vault.balance_of (Vault.transfer w4 1 2 (-5)).1.vault 2 = -5 ∧
    (Vault.approve w4 1 2 (-7)).2 = .ok true ∧
    (Vault.approve w4 1 2 (-7)).1.vault.allowances 1 2 = some (-7) := by
  refine ⟨rfl, by decide, by decide, rfl, by decide⟩

/-! ## C2 counterexample -/

/-- C2 counterexample: in the initialized world `w2` (supply 2, custodian
    total 3), the input `assets = -5` gives `(-5 * 2) / 3 = -3` under the
    code's truncating division, while the spec's algorithm floors to `-4`:
    the claim's equation fails at this state and input. -/
theorem C2_counterexample_trunc_vs_floor :
    Vault.convert_to_shares_internal w2 (-5) false = some (-3) ∧
    specToShares (Vault.total_supply w2.vault) (Token.balance w2.token w2.self) (-5) false
      = -4 ∧
    Vault.convert_to_shares_internal w2 (-5) false ≠
      some (specToShares (Vault.total_supply w2.vault) (Token.balance w2.token w2.self)
        (-5) false) := by
  refine ⟨by decide, by decide, by decide⟩

/-! ## Refinement of the conversion arithmetic -/

theorem chk_eq_some_of {x : Int} (h : inI128 x) : chk x = some x := by
  simp [chk, h]

theorem chk_eq_none_of {x : Int} (h : i128Max < x) : chk x = none := by
  have hn : ¬ inI128 x := by
    simp only [inI128]
    omega
  simp [chk, hn]

theorem i128Min_neg : i128Min < 0 := by decide

theorem i128Max_pos : 0 < i128Max := by decide

/-- For a non-negative dividend, a positive divisor and an in-range
    dividend, the code's truncating rounding kernel computes exactly the
    spec's floor (ceiling when rounding up on a nonzero remainder). -/
theorem divRound_eq_floor {p d : Int} (ru : Bool) (hp : 0 ≤ p) (hd : 0 < d)
    (hmax : p ≤ i128Max) :
    divRound p d ru
      = some (if ru ∧ Int.fmod p d ≠ 0 then Int.fdiv p d + 1 else Int.fdiv p d) := by
  have hdne : d ≠ 0 := ne_of_gt hd
  have hpmin : p ≠ i128Min := by
    have := i128Min_neg
    omega
  have hc : ¬(p = i128Min ∧ d = -1) := fun hh => hpmin hh.1
  have htd : Int.tdiv p d = Int.fdiv p d := by
    rw [Int.tdiv_eq_ediv hp hd.le, Int.fdiv_eq_ediv _ hd.le]
  have htm : Int.tmod p d = Int.fmod p d := by
    rw [Int.tmod_eq_emod hp hd.le, Int.fmod_eq_emod _ hd.le]
  have hmnn : 0 ≤ Int.fmod p d := by
    rw [Int.fmod_eq_emod _ hd.le]
    exact Int.emod_nonneg p hdne
  simp only [divRound, rdiv, rrem, if_neg hdne, if_neg hc]
  cases ru with
  | false => simp [htd]
  | true =>
    by_cases hm : Int.fmod p d = 0
    · have hm' : ¬ Int.tmod p d > 0 := by rw [htm]; omega
      simp [hm, hm', htd]
    · have hm' : Int.tmod p d > 0 := by rw [htm]; omega
      simp only [hm, hm', htd, true_and, and_true, if_pos, ne_eq, not_false_iff]
      apply chk_eq_some_of
      have hq0 : 0 ≤ Int.fdiv p d := by
        rw [Int.fdiv_eq_ediv _ hd.le]
        exact Int.ediv_nonneg hp hd.le
      have hqle : Int.fdiv p d + 1 ≤ i128Max := by
        rw [Int.fdiv_eq_ediv _ hd.le]
        rw [Int.fmod_eq_emod _ hd.le] at hm hmnn
        have hid : d * (p / d) + p % d = p := Int.ediv_add_emod p d
        have hqd : p / d ≤ d * (p / d) :=
          le_mul_of_one_le_left (Int.ediv_nonneg hp hd.le) hd
        set A := d * (p / d) with hA
        omega
      constructor
      · have := i128Min_neg
        omega
      · exact hqle

/-- For every state with the asset key set, non-negative supply and
    custodian total, and non-negative input whose product with the supply
    fits in `i128`, `convert_to_shares_internal` returns exactly the spec's
    algorithm. -/
theorem convert_to_shares_refines_spec (w : World) (aAddr : Addr)
    (ha : w.vault.asset = some aAddr) (assets : Int) (ru : Bool)
    (h0 : 0 ≤ assets) (hs : 0 ≤ Vault.total_supply w.vault)
    (ht : 0 ≤ Token.balance w.token w.self)
    (hmax : assets * Vault.total_supply w.vault ≤ i128Max) :
    Vault.convert_to_shares_internal w assets ru
      = some (specToShares (Vault.total_supply w.vault)
          (Token.balance w.token w.self) assets ru) := by
  unfold Vault.convert_to_shares_internal specToShares
  rw [ha]
  by_cases hg : Vault.total_supply w.vault = 0 ∨ Token.balance w.token w.self = 0
  · simp [hg]
  · push_neg at hg
    have hs' : 0 < Vault.total_supply w.vault := lt_of_le_of_ne hs (Ne.symm hg.1)
    have ht' : 0 < Token.balance w.token w.self := lt_of_le_of_ne ht (Ne.symm hg.2)
    have hp : 0 ≤ assets * Vault.total_supply w.vault := mul_nonneg h0 hs
    have hin : inI128 (assets * Vault.total_supply w.vault) := by
      constructor
      · have := i128Min_neg
        omega
      · exact hmax
    simp only [hg.1, hg.2, or_self, if_false, if_neg (not_or_intro hg.1 hg.2),
      chk_eq_some_of hin]
    exact divRound_eq_floor ru hp ht' hmax

/-- Mirror-image refinement for `convert_to_assets_internal`. -/
theorem convert_to_assets_refines_spec (w : World) (aAddr : Addr)
    (ha : w.vault.asset = some aAddr) (shares : Int) (ru : Bool)
    (h0 : 0 ≤ shares) (hs : 0 ≤ Vault.total_supply w.vault)
    (ht : 0 ≤ Token.balance w.token w.self)
    (hmax : shares * Token.balance w.token w.self ≤ i128Max) :
    Vault.convert_to_assets_internal w shares ru
      = some (specToAssets (Vault.total_supply w.vault)
          (Token.balance w.token w.self) shares ru) := by
  unfold Vault.convert_to_assets_internal specToAssets
  rw [ha]
  by_cases hg : Vault.total_supply w.vault = 0 ∨ Token.balance w.token w.self = 0
  · simp [hg]
  · push_neg at hg
    have hs' : 0 < Vault.total_supply w.vault := lt_of_le_of_ne hs (Ne.symm hg.1)
    have ht' : 0 < Token.balance w.token w.self := lt_of_le_of_ne ht (Ne.symm hg.2)
    have hp : 0 ≤ shares * Token.balance w.token w.self := mul_nonneg h0 ht
    have hin : inI128 (shares * Token.balance w.token w.self) := by
      constructor
      · have := i128Min_neg
        omega
      · exact hmax
    simp only [hg.1, hg.2, or_self, if_false, if_neg (not_or_intro hg.1 hg.2),
      chk_eq_some_of hin]
    exact divRound_eq_floor ru hp hs' hmax

/-- When the intermediate product exceeds `i128::MAX`, the share conversion
    traps (there is no double-width intermediate). -/
theorem convert_to_shares_overflow (w : World) (aAddr : Addr)
    (ha : w.vault.asset = some aAddr) (assets : Int) (ru : Bool)
    (hsg : Vault.total_supply w.vault ≠ 0)
    (htg : Token.balance w.token w.self ≠ 0)
    (hmax : i128Max < assets * Vault.total_supply w.vault) :
    Vault.convert_to_shares_internal w assets ru = none := by
  unfold Vault.convert_to_shares_internal
  rw [ha]
  simp [hsg, htg, chk_eq_none_of hmax]

/-- When the intermediate product exceeds `i128::MAX`, the asset conversion
    traps (there is no double-width intermediate). -/
theorem convert_to_assets_overflow (w : World) (aAddr : Addr)
    (ha : w.vault.asset = some aAddr) (shares : Int) (ru : Bool)
    (hsg : Vault.total_supply w.vault ≠ 0)
    (htg : Token.balance w.token w.self ≠ 0)
    (hmax : i128Max < shares * Token.balance w.token w.self) :
    Vault.convert_to_assets_internal w shares ru = none := by
  unfold Vault.convert_to_assets_internal
  rw [ha]
  simp [hsg, htg, chk_eq_none_of hmax]

/-! ## C2 amended -/

/-- C2 (amended): for every state with the asset key set and non-negative
    supply, custodian total and input whose intermediate product fits in
    `i128`, the conversion functions compute exactly the spec's algorithm
    (bootstrap identity, floor division — which coincides with the code's
    truncation on this domain — and a +1 ceiling bump when rounding up on a
    nonzero remainder).  Outside this domain the claim fails: negative
    inputs truncate toward zero instead of flooring
    (`C2_counterexample_trunc_vs_floor`), and an overflowing product traps. -/
theorem C2_conversions_follow_spec (w : World) (aAddr : Addr)
    (ha : w.vault.asset = some aAddr)
    (hs : 0 ≤ Vault.total_supply w.vault)
    (ht : 0 ≤ Token.balance w.token w.self) :
    (∀ assets ru, 0 ≤ assets →
      assets * Vault.total_supply w.vault ≤ i128Max →
      Vault.convert_to_shares_internal w assets ru
        = some (specToShares (Vault.total_supply w.vault)
            (Token.balance w.token w.self) assets ru)) ∧
    (∀ shares ru, 0 ≤ shares →
      shares * Token.balance w.token w.self ≤ i128Max →
      Vault.convert_to_assets_internal w shares ru
        = some (specToAssets (Vault.total_supply w.vault)
            (Token.balance w.token w.self) shares ru)) := by
  constructor
  · intro assets ru h0 hmax
    exact convert_to_shares_refines_spec w aAddr ha assets ru h0 hs ht hmax
  · intro shares ru h0 hmax
    exact convert_to_assets_refines_spec w aAddr ha shares ru h0 hs ht hmax

/-- Witness for `C2_conversions_follow_spec` at the concrete world `w2`
    (supply 2, custodian total 3) and input 7 with rounding up:
    `(7 * 2) / 3 = 4`, remainder nonzero, so the result is 5. -/
theorem C2_conversions_follow_spec_witness :
    Vault.convert_to_shares_internal w2 7 true
      = some (specToShares (Vault.total_supply w2.vault)
          (Token.balance w2.token w2.self) 7 true) ∧
    specToShares (Vault.total_supply w2.vault) (Token.balance w2.token w2.self) 7 true
      = 5 :=
  ⟨(C2_conversions_follow_spec w2 5 rfl (by decide) (by decide)).1 7 true (by decide)
      (by decide),
   by decide⟩

/-! ## C6 counterexample -/

/-- C6 counterexample: in the initialized world `w6` (supply `2^100`,
    custodian total `2^100`, both representable `i128` values), converting
    `2^30` assets traps — the code multiplies `assets * supply = 2^130`
    directly in `i128` with no double-width intermediate — even though the
    exact mathematical result `2^30` fits comfortably in `i128`. -/
theorem C6_counterexample_overflow_trap :
    inI128 (2 ^ 100) ∧
    Vault.convert_to_shares_internal w6 (2 ^ 30) false = none ∧
    specToShares (2 ^ 100) (2 ^ 100) (2 ^ 30) false = 2 ^ 30 ∧
    inI128 ((2 : Int) ^ 30) := by
  refine ⟨by decide, by decide, by decide, by decide⟩

/-! ## Small facts about the store writers -/

theorem total_supply_setBal (s : VaultStore) (a : Addr) (v : Int) :
    Vault.total_supply (Vault.setBal s a v) = Vault.total_supply s := rfl

theorem allowances_setBal (s : VaultStore) (a : Addr) (v : Int) :
    (Vault.setBal s a v).allowances = s.allowances := rfl

theorem balances_setAllow (s : VaultStore) (o sp : Addr) (v : Int) :
    (Vault.setAllow s o sp v).balances = s.balances := rfl

theorem total_supply_setAllow (s : VaultStore) (o sp : Addr) (v : Int) :
    Vault.total_supply (Vault.setAllow s o sp v) = Vault.total_supply s := rfl

theorem balance_of_setBal (s : VaultStore) (a : Addr) (v : Int) :
    Vault.balance_of (Vault.setBal s a v) = Function.update (Vault.balance_of s) a v := by
  funext x
  unfold Vault.balance_of Vault.setBal Function.update
  by_cases hx : x = a
  · subst hx
    simp
  · simp [hx]

theorem chk_some_range {x y : Int} (h : chk x = some y) : inI128 x := by
  unfold chk at h
  split at h
  · assumption
  · exact absurd h (by simp)

theorem chk_some_inv {x y : Int} (h : chk x = some y) : y = x := by
  unfold chk at h
  split at h
  · exact (Option.some_injective _ h).symm
  · exact absurd h (by simp)

/-! ## Inversion helpers for the internal ledger operations -/

theorem mint_internal_not_err (w : World) (a : Addr) (amt : Int) (w' : World) (e : Error) :
    Vault.mint_internal w a amt ≠ (w', .err e) := by
  simp only [Vault.mint_internal]
  split <;> simp
  split <;> simp

theorem mint_internal_ok_inv {w : World} {a : Addr} {amt : Int} {w' : World} {u : Unit}
    (h : Vault.mint_internal w a amt = (w', .ok u)) :
    w'.self = w.self ∧ w'.token = w.token ∧
    w'.vault = { Vault.setBal w.vault a (Vault.balance_of w.vault a + amt) with
                 totalSupply := some (Vault.total_supply w.vault + amt) } ∧
    inI128 (Vault.balance_of w.vault a + amt) ∧
    inI128 (Vault.total_supply w.vault + amt) := by
  simp only [Vault.mint_internal] at h
  cases hc1 : chk (Vault.balance_of w.vault a + amt) with
  | none =>
    simp only [hc1] at h
    exact absurd h (by simp)
  | some nb =>
    simp only [hc1, total_supply_setBal] at h
    cases hc2 : chk (Vault.total_supply w.vault + amt) with
    | none =>
      simp only [hc2] at h
      exact absurd h (by simp)
    | some nts =>
      simp only [hc2, Prod.mk.injEq] at h
      obtain ⟨hw, _⟩ := h
      have h1 := chk_some_inv hc1
      have h2 := chk_some_inv hc2
      subst h1; subst h2
      exact ⟨by rw [← hw], by rw [← hw], by rw [← hw],
        chk_some_range hc1, chk_some_range hc2⟩

theorem burn_internal_err_inv {w : World} {a : Addr} {amt : Int} {w' : World} {e : Error}
    (h : Vault.burn_internal w a amt = (w', .err e)) :
    w' = w ∧ e = .InsufficientBalance ∧ Vault.balance_of w.vault a < amt := by
  simp only [Vault.burn_internal] at h
  split at h
  · simp only [Prod.mk.injEq] at h
    obtain ⟨h1, h2⟩ := h
    injection h2 with h2
    exact ⟨h1.symm, h2.symm, by assumption⟩
  · cases hc1 : chk (Vault.balance_of w.vault a - amt) with
    | none =>
      simp only [hc1] at h
      exact absurd h (by simp)
    | some nb =>
      simp only [hc1, total_supply_setBal] at h
      cases hc2 : chk (Vault.total_supply w.vault - amt) with
      | none =>
        simp only [hc2] at h
        exact absurd h (by simp)
      | some nts =>
        simp only [hc2] at h
        exact absurd h (by simp)

theorem burn_internal_ok_inv {w : World} {a : Addr} {amt : Int} {w' : World} {u : Unit}
    (h : Vault.burn_internal w a amt = (w', .ok u)) :
    amt ≤ Vault.balance_of w.vault a ∧
    w'.self = w.self ∧ w'.token = w.token ∧
    w'.vault = { Vault.setBal w.vault a (Vault.balance_of w.vault a - amt) with
                 totalSupply := some (Vault.total_supply w.vault - amt) } ∧
    inI128 (Vault.balance_of w.vault a - amt) ∧
    inI128 (Vault.total_supply w.vault - amt) := by
  simp only [Vault.burn_internal] at h
  split at h
  · exact absurd h (by simp)
  · rename_i hge
    cases hc1 : chk (Vault.balance_of w.vault a - amt) with
    | none =>
      simp only [hc1] at h
      exact absurd h (by simp)
    | some nb =>
      simp only [hc1, total_supply_setBal] at h
      cases hc2 : chk (Vault.total_supply w.vault - amt) with
      | none =>
        simp only [hc2] at h
        exact absurd h (by simp)
      | some nts =>
        simp only [hc2, Prod.mk.injEq] at h
        obtain ⟨hw, _⟩ := h
        have h1 := chk_some_inv hc1
        have h2 := chk_some_inv hc2
        subst h1; subst h2
        exact ⟨by omega, by rw [← hw], by rw [← hw], by rw [← hw],
          chk_some_range hc1, chk_some_range hc2⟩

theorem transfer_internal_err_inv {w : World} {fr dst : Addr} {amt : Int} {w' : World}
    {e : Error} (h : Vault.transfer_internal w fr dst amt = (w', .err e)) :
    w' = w ∧ e = .InsufficientBalance ∧ Vault.balance_of w.vault fr < amt := by
  simp only [Vault.transfer_internal] at h
  split at h
  · simp only [Prod.mk.injEq] at h
    obtain ⟨h1, h2⟩ := h
    injection h2 with h2
    exact ⟨h1.symm, h2.symm, by assumption⟩
  · cases hc1 : chk (Vault.balance_of w.vault fr - amt) with
    | none =>
      simp only [hc1] at h
      exact absurd h (by simp)
    | some d =>
      simp only [hc1] at h
      cases hc2 : chk (Vault.balance_of (Vault.setBal w.vault fr d) dst + amt) with
      | none =>
        simp only [hc2] at h
        exact absurd h (by simp)
      | some c =>
        simp only [hc2] at h
        exact absurd h (by simp)

theorem transfer_internal_ok_inv {w : World} {fr dst : Addr} {amt : Int} {w' : World}
    {u : Unit} (h : Vault.transfer_internal w fr dst amt = (w', .ok u)) :
    amt ≤ Vault.balance_of w.vault fr ∧
    w'.self = w.self ∧ w'.token = w.token ∧
    w'.vault =
      Vault.setBal (Vault.setBal w.vault fr (Vault.balance_of w.vault fr - amt)) dst
        (Vault.balance_of (Vault.setBal w.vault fr (Vault.balance_of w.vault fr - amt)) dst
          + amt) := by
  simp only [Vault.transfer_internal] at h
  split at h
  · exact absurd h (by simp)
  · rename_i hge
    cases hc1 : chk (Vault.balance_of w.vault fr - amt) with
    | none =>
      simp only [hc1] at h
      exact absurd h (by simp)
    | some d =>
      simp only [hc1] at h
      cases hc2 : chk (Vault.balance_of (Vault.setBal w.vault fr d) dst + amt) with
      | none =>
        simp only [hc2] at h
        exact absurd h (by simp)
      | some c =>
        simp only [hc2, Prod.mk.injEq] at h
        obtain ⟨hw, _⟩ := h
        have h1 := chk_some_inv hc1
        have h2 := chk_some_inv hc2
        subst h1; subst h2
        exact ⟨by omega, by rw [← hw], by rw [← hw], by rw [← hw]⟩

theorem withdraw_ok_inv {w : World} {assets : Int} {r o : Addr} {w' : World} {v : Int}
    (h : Vault.withdraw w assets r o = (w', .ok v)) :
    ∃ sh w1 w2, 0 < assets ∧
      Vault.convert_to_shares_internal w assets true = some sh ∧ 0 < sh ∧ v = sh ∧
      ((w.self = o ∧ w1 = w) ∨
       (w.self ≠ o ∧ Vault.allowance w.vault o w.self = i128Max ∧
        ¬ Vault.allowance w.vault o w.self < sh ∧ w1 = w) ∨
       (w.self ≠ o ∧ Vault.allowance w.vault o w.self ≠ i128Max ∧
        ¬ Vault.allowance w.vault o w.self < sh ∧
        w1 = { w with vault := (Vault.setAllow w.vault o w.self
                 (Vault.allowance w.vault o w.self - sh)) })) ∧
      Vault.burn_internal w1 o sh = (w2, .ok ()) ∧
      ∃ t3, Token.transfer w2.token w2.self r assets = some t3 ∧
        w' = { w2 with token := t3 } := by
  by_cases h1 : assets ≤ 0
  · simp [Vault.withdraw, h1] at h
  · cases hc : Vault.convert_to_shares_internal w assets true with
    | none => simp [Vault.withdraw, h1, hc] at h
    | some sh =>
      by_cases h2 : sh ≤ 0
      · simp [Vault.withdraw, h1, hc, h2] at h
      · by_cases how : w.self = o
        · rcases hb : Vault.burn_internal w o sh with ⟨wb, rb⟩
          cases rb with
          | err e => simp [Vault.withdraw, h1, hc, h2, how, andThen, hb] at h
          | trap => simp [Vault.withdraw, h1, hc, h2, how, andThen, hb] at h
          | ok u =>
            cases hA : wb.vault.asset with
            | none => simp [Vault.withdraw, h1, hc, h2, how, andThen, hb, hA] at h
            | some aA =>
              cases ht : Token.transfer wb.token wb.self r assets with
              | none => simp [Vault.withdraw, h1, hc, h2, how, andThen, hb, hA, ht] at h
              | some t3 =>
                simp [Vault.withdraw, h1, hc, h2, how, andThen, hb, hA, ht] at h
                obtain ⟨hw', hv⟩ := h
                exact ⟨sh, w, wb, by omega, rfl, by omega, hv.symm,
                  Or.inl ⟨how, rfl⟩, hb, t3, ht, hw'.symm⟩
        · by_cases hal : Vault.allowance w.vault o w.self < sh
          · simp [Vault.withdraw, h1, hc, h2, how, hal, andThen] at h
          · by_cases hmax : Vault.allowance w.vault o w.self = i128Max
            · have hal2 : ¬ i128Max < sh := by omega
              rcases hb : Vault.burn_internal w o sh with ⟨wb, rb⟩
              cases rb with
              | err e => simp [Vault.withdraw, h1, hc, h2, how, hal, hal2, hmax, andThen, hb] at h
              | trap => simp [Vault.withdraw, h1, hc, h2, how, hal, hal2, hmax, andThen, hb] at h
              | ok u =>
                cases u
                cases hA : wb.vault.asset with
                | none =>
                  simp [Vault.withdraw, h1, hc, h2, how, hal, hal2, hmax, andThen, hb, hA] at h
                | some aA =>
                  cases ht : Token.transfer wb.token wb.self r assets with
                  | none =>
                    simp [Vault.withdraw, h1, hc, h2, how, hal, hal2, hmax, andThen, hb, hA, ht] at h
                  | some t3 =>
                    simp [Vault.withdraw, h1, hc, h2, how, hal, hal2, hmax, andThen, hb, hA, ht] at h
                    obtain ⟨hw', hv⟩ := h
                    exact ⟨sh, w, wb, by omega, rfl, by omega, hv.symm,
                      Or.inr (Or.inl ⟨how, hmax, hal, rfl⟩), hb, t3, ht, hw'.symm⟩
            · cases hk : chk (Vault.allowance w.vault o w.self - sh) with
              | none =>
                simp [Vault.withdraw, h1, hc, h2, how, hal, hmax, hk, andThen] at h
              | some vv =>
                have hvv := chk_some_inv hk
                subst hvv
                rcases hb : Vault.burn_internal
                    { w with vault := (Vault.setAllow w.vault o w.self
                      (Vault.allowance w.vault o w.self - sh)) } o sh with ⟨wb, rb⟩
                cases rb with
                | err e =>
                  simp [Vault.withdraw, h1, hc, h2, how, hal, hmax, hk, andThen, hb] at h
                | trap =>
                  simp [Vault.withdraw, h1, hc, h2, how, hal, hmax, hk, andThen, hb] at h
                | ok u =>
                  cases u
                  cases hA : wb.vault.asset with
                  | none =>
                    simp [Vault.withdraw, h1, hc, h2, how, hal, hmax, hk, andThen, hb, hA] at h
                  | some aA =>
                    cases ht : Token.transfer wb.token wb.self r assets with
                    | none =>
                      simp [Vault.withdraw, h1, hc, h2, how, hal, hmax, hk, andThen,
                        hb, hA, ht] at h
                    | some t3 =>
                      simp [Vault.withdraw, h1, hc, h2, how, hal, hmax, hk, andThen,
                        hb, hA, ht] at h
                      obtain ⟨hw', hv⟩ := h
                      exact ⟨sh, _, wb, by omega, rfl, by omega, hv.symm,
                        Or.inr (Or.inr ⟨how, hmax, hal, rfl⟩), hb, t3, ht, hw'.symm⟩

theorem redeem_ok_inv {w : World} {shares : Int} {r o : Addr} {w' : World} {v : Int}
    (h : Vault.redeem w shares r o = (w', .ok v)) :
    ∃ a0 w1 w2, 0 < shares ∧
      Vault.convert_to_assets_internal w shares false = some a0 ∧ 0 < a0 ∧ v = a0 ∧
      ((w.self = o ∧ w1 = w) ∨
       (w.self ≠ o ∧ Vault.allowance w.vault o w.self = i128Max ∧
        ¬ Vault.allowance w.vault o w.self < shares ∧ w1 = w) ∨
       (w.self ≠ o ∧ Vault.allowance w.vault o w.self ≠ i128Max ∧
        ¬ Vault.allowance w.vault o w.self < shares ∧
        w1 = { w with vault := (Vault.setAllow w.vault o w.self
                 (Vault.allowance w.vault o w.self - shares)) })) ∧
      Vault.burn_internal w1 o shares = (w2, .ok ()) ∧
      ∃ t3, Token.transfer w2.token w2.self r a0 = some t3 ∧
        w' = { w2 with token := t3 } := by
  by_cases h1 : shares ≤ 0
  · simp [Vault.redeem, h1] at h
  · cases hc : Vault.convert_to_assets_internal w shares false with
    | none => simp [Vault.redeem, h1, hc] at h
    | some a0 =>
      by_cases h2 : a0 ≤ 0
      · simp [Vault.redeem, h1, hc, h2] at h
      · by_cases how : w.self = o
        · rcases hb : Vault.burn_internal w o shares with ⟨wb, rb⟩
          cases rb with
          | err e => simp [Vault.redeem, h1, hc, h2, how, andThen, hb] at h
          | trap => simp [Vault.redeem, h1, hc, h2, how, andThen, hb] at h
          | ok u =>
            cases hA : wb.vault.asset with
            | none => simp [Vault.redeem, h1, hc, h2, how, andThen, hb, hA] at h
            | some aA =>
              cases ht : Token.transfer wb.token wb.self r a0 with
              | none => simp [Vault.redeem, h1, hc, h2, how, andThen, hb, hA, ht] at h
              | some t3 =>
                simp [Vault.redeem, h1, hc, h2, how, andThen, hb, hA, ht] at h
                obtain ⟨hw', hv⟩ := h
                exact ⟨a0, w, wb, by omega, rfl, by omega, hv.symm,
                  Or.inl ⟨how, rfl⟩, hb, t3, ht, hw'.symm⟩
        · by_cases hal : Vault.allowance w.vault o w.self < shares
          · simp [Vault.redeem, h1, hc, h2, how, hal, andThen] at h
          · by_cases hmax : Vault.allowance w.vault o w.self = i128Max
            · have hal2 : ¬ i128Max < shares := by omega
              rcases hb : Vault.burn_internal w o shares with ⟨wb, rb⟩
              cases rb with
              | err e => simp [Vault.redeem, h1, hc, h2, how, hal, hal2, hmax, andThen, hb] at h
              | trap => simp [Vault.redeem, h1, hc, h2, how, hal, hal2, hmax, andThen, hb] at h
              | ok u =>
                cases u
                cases hA : wb.vault.asset with
                | none =>
                  simp [Vault.redeem, h1, hc, h2, how, hal, hal2, hmax, andThen, hb, hA] at h
                | some aA =>
                  cases ht : Token.transfer wb.token wb.self r a0 with
                  | none =>
                    simp [Vault.redeem, h1, hc, h2, how, hal, hal2, hmax, andThen, hb, hA, ht] at h
                  | some t3 =>
                    simp [Vault.redeem, h1, hc, h2, how, hal, hal2, hmax, andThen, hb, hA, ht] at h
                    obtain ⟨hw', hv⟩ := h
                    exact ⟨a0, w, wb, by omega, rfl, by omega, hv.symm,
                      Or.inr (Or.inl ⟨how, hmax, hal, rfl⟩), hb, t3, ht, hw'.symm⟩
            · cases hk : chk (Vault.allowance w.vault o w.self - shares) with
              | none =>
                simp [Vault.redeem, h1, hc, h2, how, hal, hmax, hk, andThen] at h
              | some vv =>
                have hvv := chk_some_inv hk
                subst hvv
                rcases hb : Vault.burn_internal
                    { w with vault := (Vault.setAllow w.vault o w.self
                      (Vault.allowance w.vault o w.self - shares)) } o shares with ⟨wb, rb⟩
                cases rb with
                | err e =>
                  simp [Vault.redeem, h1, hc, h2, how, hal, hmax, hk, andThen, hb] at h
                | trap =>
                  simp [Vault.redeem, h1, hc, h2, how, hal, hmax, hk, andThen, hb] at h
                | ok u =>
                  cases u
                  cases hA : wb.vault.asset with
                  | none =>
                    simp [Vault.redeem, h1, hc, h2, how, hal, hmax, hk, andThen, hb, hA] at h
                  | some aA =>
                    cases ht : Token.transfer wb.token wb.self r a0 with
                    | none =>
                      simp [Vault.redeem, h1, hc, h2, how, hal, hmax, hk, andThen,
                        hb, hA, ht] at h
                    | some t3 =>
                      simp [Vault.redeem, h1, hc, h2, how, hal, hmax, hk, andThen,
                        hb, hA, ht] at h
                      obtain ⟨hw', hv⟩ := h
                      exact ⟨a0, _, wb, by omega, rfl, by omega, hv.symm,
                        Or.inr (Or.inr ⟨how, hmax, hal, rfl⟩), hb, t3, ht, hw'.symm⟩

theorem transfer_from_ok_inv {w : World} {sp fr dst : Addr} {amount : Int} {w' : World}
    {b : Bool} (h : Vault.transfer_from w sp fr dst amount = (w', .ok b)) :
    ¬ Vault.allowance w.vault fr sp < amount ∧
    ∃ w1,
      ((Vault.allowance w.vault fr sp = i128Max ∧ w1 = w) ∨
       (Vault.allowance w.vault fr sp ≠ i128Max ∧
        w1 = { w with vault := (Vault.setAllow w.vault fr sp
                 (Vault.allowance w.vault fr sp - amount)) })) ∧
      Vault.transfer_internal w1 fr dst amount = (w', .ok ()) := by
  by_cases hal : Vault.allowance w.vault fr sp < amount
  · simp [Vault.transfer_from, hal] at h
  · by_cases hmax : Vault.allowance w.vault fr sp = i128Max
    · have hal2 : ¬ i128Max < amount := by omega
      rcases ht : Vault.transfer_internal w fr dst amount with ⟨wt, rt⟩
      cases rt with
      | err e => simp [Vault.transfer_from, hal, hal2, hmax, andThen, ht] at h
      | trap => simp [Vault.transfer_from, hal, hal2, hmax, andThen, ht] at h
      | ok u =>
        cases u
        simp [Vault.transfer_from, hal, hal2, hmax, andThen, ht] at h
        exact ⟨hal, w, Or.inl ⟨hmax, rfl⟩, by rw [ht, h.1]⟩
    · cases hk : chk (Vault.allowance w.vault fr sp - amount) with
      | none => simp [Vault.transfer_from, hal, hmax, hk, andThen] at h
      | some vv =>
        have hvv := chk_some_inv hk
        subst hvv
        rcases ht : Vault.transfer_internal
            { w with vault := (Vault.setAllow w.vault fr sp
              (Vault.allowance w.vault fr sp - amount)) } fr dst amount with ⟨wt, rt⟩
        cases rt with
        | err e => simp [Vault.transfer_from, hal, hmax, hk, andThen, ht] at h
        | trap => simp [Vault.transfer_from, hal, hmax, hk, andThen, ht] at h
        | ok u =>
          cases u
          simp [Vault.transfer_from, hal, hmax, hk, andThen, ht] at h
          exact ⟨hal, _, Or.inr ⟨hmax, rfl⟩, by rw [ht, h.1]⟩

theorem deposit_err_inv {w : World} {assets : Int} {r : Addr} {w' : World} {e : Error}
    (h : Vault.deposit w assets r = (w', .err e)) :
    w' = w ∧
    ((e = .ZeroAssets ∧ assets ≤ 0) ∨
     (e = .ZeroShares ∧ 0 < assets ∧
       ∃ sh, Vault.convert_to_shares_internal w assets false = some sh ∧ sh ≤ 0)) := by
  by_cases h1 : assets ≤ 0
  · simp only [Vault.deposit, if_pos h1, Prod.mk.injEq] at h
    obtain ⟨hw, he⟩ := h
    injection he with he
    exact ⟨hw.symm, Or.inl ⟨he.symm, h1⟩⟩
  · cases hc : Vault.convert_to_shares_internal w assets false with
    | none => simp [Vault.deposit, h1, hc] at h
    | some sh =>
      by_cases h2 : sh ≤ 0
      · simp only [Vault.deposit, if_neg h1, hc, if_pos h2, Prod.mk.injEq] at h
        obtain ⟨hw, he⟩ := h
        injection he with he
        exact ⟨hw.symm, Or.inr ⟨he.symm, by omega, sh, rfl, h2⟩⟩
      · cases hA : w.vault.asset with
        | none => simp [Vault.deposit, h1, hc, h2, hA] at h
        | some aA =>
          cases htk : Token.transfer w.token w.self w.self assets with
          | none => simp [Vault.deposit, h1, hc, h2, hA, htk] at h
          | some t1 =>
            rcases hm : Vault.mint_internal { w with token := t1 } r sh with ⟨wm, rm⟩
            cases rm with
            | ok u => simp [Vault.deposit, h1, hc, h2, hA, htk, andThen, hm] at h
            | trap => simp [Vault.deposit, h1, hc, h2, hA, htk, andThen, hm] at h
            | err e2 => exact absurd hm (mint_internal_not_err _ _ _ _ _)

theorem mint_err_inv {w : World} {shares : Int} {r : Addr} {w' : World} {e : Error}
    (h : Vault.mint w shares r = (w', .err e)) :
    w' = w ∧
    ((e = .ZeroShares ∧ shares ≤ 0) ∨
     (e = .ZeroAssets ∧ 0 < shares ∧
       ∃ a0, Vault.convert_to_assets_internal w shares true = some a0 ∧ a0 ≤ 0)) := by
  by_cases h1 : shares ≤ 0
  · simp only [Vault.mint, if_pos h1, Prod.mk.injEq] at h
    obtain ⟨hw, he⟩ := h
    injection he with he
    exact ⟨hw.symm, Or.inl ⟨he.symm, h1⟩⟩
  · cases hc : Vault.convert_to_assets_internal w shares true with
    | none => simp [Vault.mint, h1, hc] at h
    | some a0 =>
      by_cases h2 : a0 ≤ 0
      · simp only [Vault.mint, if_neg h1, hc, if_pos h2, Prod.mk.injEq] at h
        obtain ⟨hw, he⟩ := h
        injection he with he
        exact ⟨hw.symm, Or.inr ⟨he.symm, by omega, a0, rfl, h2⟩⟩
      · cases hA : w.vault.asset with
        | none => simp [Vault.mint, h1, hc, h2, hA] at h
        | some aA =>
          cases htk : Token.transfer w.token w.self w.self a0 with
          | none => simp [Vault.mint, h1, hc, h2, hA, htk] at h
          | some t1 =>
            rcases hm : Vault.mint_internal { w with token := t1 } r shares with ⟨wm, rm⟩
            cases rm with
            | ok u => simp [Vault.mint, h1, hc, h2, hA, htk, andThen, hm] at h
            | trap => simp [Vault.mint, h1, hc, h2, hA, htk, andThen, hm] at h
            | err e2 => exact absurd hm (mint_internal_not_err _ _ _ _ _)

theorem withdraw_err_inv {w : World} {assets : Int} {r o : Addr} {w' : World} {e : Error}
    (h : Vault.withdraw w assets r o = (w', .err e)) :
    (e = .ZeroAssets ∧ w' = w ∧ assets ≤ 0) ∨
    (e = .ZeroShares ∧ w' = w ∧ 0 < assets ∧
      ∃ sh, Vault.convert_to_shares_internal w assets true = some sh ∧ sh ≤ 0) ∨
    (e = .InsufficientAllowance ∧ w' = w ∧ 0 < assets ∧
      ∃ sh, Vault.convert_to_shares_internal w assets true = some sh ∧ 0 < sh ∧
        w.self ≠ o ∧ Vault.allowance w.vault o w.self < sh) ∨
    (e = .InsufficientBalance ∧ ∃ sh w1, 0 < assets ∧
      Vault.convert_to_shares_internal w assets true = some sh ∧ 0 < sh ∧
      ((w.self = o ∧ w1 = w) ∨
       (w.self ≠ o ∧ Vault.allowance w.vault o w.self = i128Max ∧
        ¬ Vault.allowance w.vault o w.self < sh ∧ w1 = w) ∨
       (w.self ≠ o ∧ Vault.allowance w.vault o w.self ≠ i128Max ∧
        ¬ Vault.allowance w.vault o w.self < sh ∧
        w1 = { w with vault := (Vault.setAllow w.vault o w.self
                 (Vault.allowance w.vault o w.self - sh)) })) ∧
      Vault.balance_of w1.vault o < sh ∧ w' = w1) := by
  by_cases h1 : assets ≤ 0
  · simp only [Vault.withdraw, if_pos h1, Prod.mk.injEq] at h
    obtain ⟨hw, he⟩ := h
    injection he with he
    exact Or.inl ⟨he.symm, hw.symm, h1⟩
  · cases hc : Vault.convert_to_shares_internal w assets true with
    | none => simp [Vault.withdraw, h1, hc] at h
    | some sh =>
      by_cases h2 : sh ≤ 0
      · simp only [Vault.withdraw, if_neg h1, hc, if_pos h2, Prod.mk.injEq] at h
        obtain ⟨hw, he⟩ := h
        injection he with he
        exact Or.inr (Or.inl ⟨he.symm, hw.symm, by omega, sh, rfl, h2⟩)
      · by_cases how : w.self = o
        · rcases hb : Vault.burn_internal w o sh with ⟨wb, rb⟩
          cases rb with
          | err e2 =>
            simp [Vault.withdraw, h1, hc, h2, how, andThen, hb] at h
            rcases burn_internal_err_inv hb with ⟨hwb, hcode, hbal⟩
            refine Or.inr (Or.inr (Or.inr ⟨?_, sh, w, by omega, rfl, by omega,
              Or.inl ⟨how, rfl⟩, hbal, ?_⟩))
            · rw [← h.2]
              exact hcode
            · rw [← h.1]
              exact hwb
          | trap => simp [Vault.withdraw, h1, hc, h2, how, andThen, hb] at h
          | ok u =>
            cases u
            cases hA : wb.vault.asset with
            | none => simp [Vault.withdraw, h1, hc, h2, how, andThen, hb, hA] at h
            | some aA =>
              cases ht : Token.transfer wb.token wb.self r assets with
              | none => simp [Vault.withdraw, h1, hc, h2, how, andThen, hb, hA, ht] at h
              | some t3 => simp [Vault.withdraw, h1, hc, h2, how, andThen, hb, hA, ht] at h
        · by_cases hal : Vault.allowance w.vault o w.self < sh
          · simp [Vault.withdraw, h1, hc, h2, how, hal, andThen] at h
            refine Or.inr (Or.inr (Or.inl ⟨?_, ?_, by omega, sh, rfl,
              by omega, how, hal⟩))
            · rw [← h.2]
            · rw [← h.1]
          · by_cases hmax : Vault.allowance w.vault o w.self = i128Max
            · have hal2 : ¬ i128Max < sh := by omega
              rcases hb : Vault.burn_internal w o sh with ⟨wb, rb⟩
              cases rb with
              | err e2 =>
                simp [Vault.withdraw, h1, hc, h2, how, hal, hal2, hmax, andThen, hb] at h
                rcases burn_internal_err_inv hb with ⟨hwb, hcode, hbal⟩
                refine Or.inr (Or.inr (Or.inr ⟨?_, sh, w, by omega, rfl, by omega,
                  Or.inr (Or.inl ⟨how, hmax, hal, rfl⟩), hbal, ?_⟩))
                · rw [← h.2]
                  exact hcode
                · rw [← h.1]
                  exact hwb
              | trap =>
                simp [Vault.withdraw, h1, hc, h2, how, hal, hal2, hmax, andThen, hb] at h
              | ok u =>
                cases u
                cases hA : wb.vault.asset with
                | none =>
                  simp [Vault.withdraw, h1, hc, h2, how, hal, hal2, hmax, andThen,
                    hb, hA] at h
                | some aA =>
                  cases ht : Token.transfer wb.token wb.self r assets with
                  | none =>
                    simp [Vault.withdraw, h1, hc, h2, how, hal, hal2, hmax, andThen,
                      hb, hA, ht] at h
                  | some t3 =>
                    simp [Vault.withdraw, h1, hc, h2, how, hal, hal2, hmax, andThen,
                      hb, hA, ht] at h
            · cases hk : chk (Vault.allowance w.vault o w.self - sh) with
              | none => simp [Vault.withdraw, h1, hc, h2, how, hal, hmax, hk, andThen] at h
              | some vv =>
                have hvv := chk_some_inv hk
                subst hvv
                rcases hb : Vault.burn_internal
                    { w with vault := (Vault.setAllow w.vault o w.self
                      (Vault.allowance w.vault o w.self - sh)) } o sh with ⟨wb, rb⟩
                cases rb with
                | err e2 =>
                  simp [Vault.withdraw, h1, hc, h2, how, hal, hmax, hk, andThen, hb] at h
                  rcases burn_internal_err_inv hb with ⟨hwb, hcode, hbal⟩
                  refine Or.inr (Or.inr (Or.inr ⟨?_, sh, _, by omega, rfl, by omega,
                    Or.inr (Or.inr ⟨how, hmax, hal, rfl⟩), hbal, ?_⟩))
                  · rw [← h.2]
                    exact hcode
                  · rw [← h.1]
                    exact hwb
                | trap =>
                  simp [Vault.withdraw, h1, hc, h2, how, hal, hmax, hk, andThen, hb] at h
                | ok u =>
                  cases u
                  cases hA : wb.vault.asset with
                  | none =>
                    simp [Vault.withdraw, h1, hc, h2, how, hal, hmax, hk, andThen,
                      hb, hA] at h
                  | some aA =>
                    cases ht : Token.transfer wb.token wb.self r assets with
                    | none =>
                      simp [Vault.withdraw, h1, hc, h2, how, hal, hmax, hk, andThen,
                        hb, hA, ht] at h
                    | some t3 =>
                      simp [Vault.withdraw, h1, hc, h2, how, hal, hmax, hk, andThen,
                        hb, hA, ht] at h

theorem redeem_err_inv {w : World} {shares : Int} {r o : Addr} {w' : World} {e : Error}
    (h : Vault.redeem w shares r o = (w', .err e)) :
    (e = .ZeroShares ∧ w' = w ∧ shares ≤ 0) ∨
    (e = .ZeroAssets ∧ w' = w ∧ 0 < shares ∧
      ∃ a0, Vault.convert_to_assets_internal w shares false = some a0 ∧ a0 ≤ 0) ∨
    (e = .InsufficientAllowance ∧ w' = w ∧ 0 < shares ∧
      ∃ a0, Vault.convert_to_assets_internal w shares false = some a0 ∧ 0 < a0 ∧
        w.self ≠ o ∧ Vault.allowance w.vault o w.self < shares) ∨
    (e = .InsufficientBalance ∧ ∃ a0 w1, 0 < shares ∧
      Vault.convert_to_assets_internal w shares false = some a0 ∧ 0 < a0 ∧
      ((w.self = o ∧ w1 = w) ∨
       (w.self ≠ o ∧ Vault.allowance w.vault o w.self = i128Max ∧
        ¬ Vault.allowance w.vault o w.self < shares ∧ w1 = w) ∨
       (w.self ≠ o ∧ Vault.allowance w.vault o w.self ≠ i128Max ∧
        ¬ Vault.allowance w.vault o w.self < shares ∧
        w1 = { w with vault := (Vault.setAllow w.vault o w.self
                 (Vault.allowance w.vault o w.self - shares)) })) ∧
      Vault.balance_of w1.vault o < shares ∧ w' = w1) := by
  by_cases h1 : shares ≤ 0
  · simp only [Vault.redeem, if_pos h1, Prod.mk.injEq] at h
    obtain ⟨hw, he⟩ := h
    injection he with he
    exact Or.inl ⟨he.symm, hw.symm, h1⟩
  · cases hc : Vault.convert_to_assets_internal w shares false with
    | none => simp [Vault.redeem, h1, hc] at h
    | some a0 =>
      by_cases h2 : a0 ≤ 0
      · simp only [Vault.redeem, if_neg h1, hc, if_pos h2, Prod.mk.injEq] at h
        obtain ⟨hw, he⟩ := h
        injection he with he
        exact Or.inr (Or.inl ⟨he.symm, hw.symm, by omega, a0, rfl, h2⟩)
      · by_cases how : w.self = o
        · rcases hb : Vault.burn_internal w o shares with ⟨wb, rb⟩
          cases rb with
          | err e2 =>
            simp [Vault.redeem, h1, hc, h2, how, andThen, hb] at h
            rcases burn_internal_err_inv hb with ⟨hwb, hcode, hbal⟩
            refine Or.inr (Or.inr (Or.inr ⟨?_, a0, w, by omega, rfl, by omega,
              Or.inl ⟨how, rfl⟩, hbal, ?_⟩))
            · rw [← h.2]
              exact hcode
            · rw [← h.1]
              exact hwb
          | trap => simp [Vault.redeem, h1, hc, h2, how, andThen, hb] at h
          | ok u =>
            cases u
            cases hA : wb.vault.asset with
            | none => simp [Vault.redeem, h1, hc, h2, how, andThen, hb, hA] at h
            | some aA =>
              cases ht : Token.transfer wb.token wb.self r a0 with
              | none => simp [Vault.redeem, h1, hc, h2, how, andThen, hb, hA, ht] at h
              | some t3 => simp [Vault.redeem, h1, hc, h2, how, andThen, hb, hA, ht] at h
        · by_cases hal : Vault.allowance w.vault o w.self < shares
          · simp [Vault.redeem, h1, hc, h2, how, hal, andThen] at h
            refine Or.inr (Or.inr (Or.inl ⟨?_, ?_, by omega, a0, rfl,
              by omega, how, hal⟩))
            · rw [← h.2]
            · rw [← h.1]
          · by_cases hmax : Vault.allowance w.vault o w.self = i128Max
            · have hal2 : ¬ i128Max < shares := by omega
              rcases hb : Vault.burn_internal w o shares with ⟨wb, rb⟩
              cases rb with
              | err e2 =>
                simp [Vault.redeem, h1, hc, h2, how, hal, hal2, hmax, andThen, hb] at h
                rcases burn_internal_err_inv hb with ⟨hwb, hcode, hbal⟩
                refine Or.inr (Or.inr (Or.inr ⟨?_, a0, w, by omega, rfl, by omega,
                  Or.inr (Or.inl ⟨how, hmax, hal, rfl⟩), hbal, ?_⟩))
                · rw [← h.2]
                  exact hcode
                · rw [← h.1]
                  exact hwb
              | trap =>
                simp [Vault.redeem, h1, hc, h2, how, hal, hal2, hmax, andThen, hb] at h
              | ok u =>
                cases u
                cases hA : wb.vault.asset with
                | none =>
                  simp [Vault.redeem, h1, hc, h2, how, hal, hal2, hmax, andThen,
                    hb, hA] at h
                | some aA =>
                  cases ht : Token.transfer wb.token wb.self r a0 with
                  | none =>
                    simp [Vault.redeem, h1, hc, h2, how, hal, hal2, hmax, andThen,
                      hb, hA, ht] at h
                  | some t3 =>
                    simp [Vault.redeem, h1, hc, h2, how, hal, hal2, hmax, andThen,
                      hb, hA, ht] at h
            · cases hk : chk (Vault.allowance w.vault o w.self - shares) with
              | none => simp [Vault.redeem, h1, hc, h2, how, hal, hmax, hk, andThen] at h
              | some vv =>
                have hvv := chk_some_inv hk
                subst hvv
                rcases hb : Vault.burn_internal
                    { w with vault := (Vault.setAllow w.vault o w.self
                      (Vault.allowance w.vault o w.self - shares)) } o shares with ⟨wb, rb⟩
                cases rb with
                | err e2 =>
                  simp [Vault.redeem, h1, hc, h2, how, hal, hmax, hk, andThen, hb] at h
                  rcases burn_internal_err_inv hb with ⟨hwb, hcode, hbal⟩
                  refine Or.inr (Or.inr (Or.inr ⟨?_, a0, _, by omega, rfl, by omega,
                    Or.inr (Or.inr ⟨how, hmax, hal, rfl⟩), hbal, ?_⟩))
                  · rw [← h.2]
                    exact hcode
                  · rw [← h.1]
                    exact hwb
                | trap =>
                  simp [Vault.redeem, h1, hc, h2, how, hal, hmax, hk, andThen, hb] at h
                | ok u =>
                  cases u
                  cases hA : wb.vault.asset with
                  | none =>
                    simp [Vault.redeem, h1, hc, h2, how, hal, hmax, hk, andThen,
                      hb, hA] at h
                  | some aA =>
                    cases ht : Token.transfer wb.token wb.self r a0 with
                    | none =>
                      simp [Vault.redeem, h1, hc, h2, how, hal, hmax, hk, andThen,
                        hb, hA, ht] at h
                    | some t3 =>
                      simp [Vault.redeem, h1, hc, h2, how, hal, hmax, hk, andThen,
                        hb, hA, ht] at h

theorem transfer_ok_inv {w : World} {fr dst : Addr} {amt : Int} {w' : World} {b : Bool}
    (h : Vault.transfer w fr dst amt = (w', .ok b)) :
    Vault.transfer_internal w fr dst amt = (w', .ok ()) := by
  rcases ht : Vault.transfer_internal w fr dst amt with ⟨wt, rt⟩
  cases rt with
  | err e => simp [Vault.transfer, andThen, ht] at h
  | trap => simp [Vault.transfer, andThen, ht] at h
  | ok u =>
    cases u
    simp [Vault.transfer, andThen, ht] at h
    rw [h.1]

theorem deposit_ok_inv {w : World} {assets : Int} {r : Addr} {w' : World} {v : Int}
    (h : Vault.deposit w assets r = (w', .ok v)) :
    ∃ sh t1, 0 < assets ∧
      Vault.convert_to_shares_internal w assets false = some sh ∧ 0 < sh ∧ v = sh ∧
      Token.transfer w.token w.self w.self assets = some t1 ∧
      Vault.mint_internal { w with token := t1 } r sh = (w', .ok ()) := by
  by_cases h1 : assets ≤ 0
  · simp [Vault.deposit, h1] at h
  · cases hc : Vault.convert_to_shares_internal w assets false with
    | none => simp [Vault.deposit, h1, hc] at h
    | some sh =>
      by_cases h2 : sh ≤ 0
      · simp [Vault.deposit, h1, hc, h2] at h
      · cases hA : w.vault.asset with
        | none => simp [Vault.deposit, h1, hc, h2, hA] at h
        | some aA =>
          cases htk : Token.transfer w.token w.self w.self assets with
          | none => simp [Vault.deposit, h1, hc, h2, hA, htk] at h
          | some t1 =>
            rcases hm : Vault.mint_internal { w with token := t1 } r sh with ⟨wm, rm⟩
            cases rm with
            | err e2 => exact absurd hm (mint_internal_not_err _ _ _ _ _)
            | trap => simp [Vault.deposit, h1, hc, h2, hA, htk, andThen, hm] at h
            | ok u =>
              cases u
              simp [Vault.deposit, h1, hc, h2, hA, htk, andThen, hm] at h
              exact ⟨sh, t1, by omega, rfl, by omega, h.2.symm, rfl, by rw [hm, h.1]⟩

theorem mint_ok_inv {w : World} {shares : Int} {r : Addr} {w' : World} {v : Int}
    (h : Vault.mint w shares r = (w', .ok v)) :
    ∃ a0 t1, 0 < shares ∧
      Vault.convert_to_assets_internal w shares true = some a0 ∧ 0 < a0 ∧ v = a0 ∧
      Token.transfer w.token w.self w.self a0 = some t1 ∧
      Vault.mint_internal { w with token := t1 } r shares = (w', .ok ()) := by
  by_cases h1 : shares ≤ 0
  · simp [Vault.mint, h1] at h
  · cases hc : Vault.convert_to_assets_internal w shares true with
    | none => simp [Vault.mint, h1, hc] at h
    | some a0 =>
      by_cases h2 : a0 ≤ 0
      · simp [Vault.mint, h1, hc, h2] at h
      · cases hA : w.vault.asset with
        | none => simp [Vault.mint, h1, hc, h2, hA] at h
        | some aA =>
          cases htk : Token.transfer w.token w.self w.self a0 with
          | none => simp [Vault.mint, h1, hc, h2, hA, htk] at h
          | some t1 =>
            rcases hm : Vault.mint_internal { w with token := t1 } r shares with ⟨wm, rm⟩
            cases rm with
            | err e2 => exact absurd hm (mint_internal_not_err _ _ _ _ _)
            | trap => simp [Vault.mint, h1, hc, h2, hA, htk, andThen, hm] at h
            | ok u =>
              cases u
              simp [Vault.mint, h1, hc, h2, hA, htk, andThen, hm] at h
              exact ⟨a0, t1, by omega, rfl, by omega, h.2.symm, htk, by rw [hm, h.1]⟩

/-! ## Allowance lookups after a write -/

theorem allowance_setAllow_same (s : VaultStore) (o sp : Addr) (x : Int) :
    Vault.allowance (Vault.setAllow s o sp x) o sp = x := by
  simp [Vault.allowance, Vault.setAllow]

theorem allowance_setAllow_other (s : VaultStore) (o sp o' sp' : Addr) (x : Int)
    (h : ¬(o' = o ∧ sp' = sp)) :
    Vault.allowance (Vault.setAllow s o sp x) o' sp' = Vault.allowance s o' sp' := by
  simp [Vault.allowance, Vault.setAllow, h]

theorem allowances_setBal_vault (s : VaultStore) (a : Addr) (v : Int) (o sp : Addr) :
    Vault.allowance (Vault.setBal s a v) o sp = Vault.allowance s o sp := rfl

/-! ## Inversion helpers for the conversion functions -/

theorem rdiv_some_inv {a b q : Int} (h : rdiv a b = some q) : q = a.tdiv b := by
  unfold rdiv at h
  split at h
  · exact absurd h (by simp)
  · split at h
    · exact absurd h (by simp)
    · exact (Option.some_injective _ h).symm

theorem divRound_false_inv {p d q : Int} (h : divRound p d false = some q) :
    q = p.tdiv d := by
  unfold divRound at h
  cases hr : rdiv p d with
  | none => rw [hr] at h; exact absurd h (by simp)
  | some q' =>
    rw [hr] at h
    cases hm : rrem p d with
    | none => rw [hm] at h; exact absurd h (by simp)
    | some m =>
      rw [hm] at h
      simp only [Bool.false_eq_true, false_and, if_false] at h
      rw [← Option.some_injective _ h]
      exact rdiv_some_inv hr

/-- Inversion of the round-down share conversion: either the bootstrap
    branch returned the input, or the result is the truncated quotient. -/
theorem convert_to_shares_false_inv {w : World} {x y : Int}
    (h : Vault.convert_to_shares_internal w x false = some y) :
    ((Vault.total_supply w.vault = 0 ∨ Token.balance w.token w.self = 0) ∧ y = x) ∨
    (¬(Vault.total_supply w.vault = 0 ∨ Token.balance w.token w.self = 0) ∧
      y = Int.tdiv (x * Vault.total_supply w.vault) (Token.balance w.token w.self)) := by
  unfold Vault.convert_to_shares_internal at h
  cases hA : w.vault.asset with
  | none => rw [hA] at h; exact absurd h (by simp)
  | some aA =>
    rw [hA] at h
    by_cases hg : Vault.total_supply w.vault = 0 ∨ Token.balance w.token w.self = 0
    · simp only [if_pos hg] at h
      exact Or.inl ⟨hg, (Option.some_injective _ h).symm⟩
    · simp only [if_neg hg] at h
      cases hc : chk (x * Vault.total_supply w.vault) with
      | none => rw [hc] at h; exact absurd h (by simp)
      | some p =>
        rw [hc] at h
        have hp := chk_some_inv hc
        subst hp
        exact Or.inr ⟨hg, divRound_false_inv h⟩

/-- Inversion of the round-down asset conversion. -/
theorem convert_to_assets_false_inv {w : World} {x y : Int}
    (h : Vault.convert_to_assets_internal w x false = some y) :
    ((Vault.total_supply w.vault = 0 ∨ Token.balance w.token w.self = 0) ∧ y = x) ∨
    (¬(Vault.total_supply w.vault = 0 ∨ Token.balance w.token w.self = 0) ∧
      y = Int.tdiv (x * Token.balance w.token w.self) (Vault.total_supply w.vault)) := by
  unfold Vault.convert_to_assets_internal at h
  cases hA : w.vault.asset with
  | none => rw [hA] at h; exact absurd h (by simp)
  | some aA =>
    rw [hA] at h
    by_cases hg : Vault.total_supply w.vault = 0 ∨ Token.balance w.token w.self = 0
    · simp only [if_pos hg] at h
      exact Or.inl ⟨hg, (Option.some_injective _ h).symm⟩
    · simp only [if_neg hg] at h
      cases hc : chk (x * Token.balance w.token w.self) with
      | none => rw [hc] at h; exact absurd h (by simp)
      | some p =>
        rw [hc] at h
        have hp := chk_some_inv hc
        subst hp
        exact Or.inr ⟨hg, divRound_false_inv h⟩

/-! ## The round-trip inequality (C3) -/

/-- Truncating a double division never exceeds the non-negative start value:
    `trunc(trunc(s*t / p) * p / t) ≤ s` for any integers `t`, `p`. -/
theorem tdiv_round_trip_le (s t p : Int) (hs : 0 ≤ s) :
    Int.tdiv (Int.tdiv (s * t) p * p) t ≤ s := by
  by_cases ht : t = 0
  · subst ht
    rw [Int.tdiv_zero]
    exact hs
  · have habs : (Int.tdiv (Int.tdiv (s * t) p * p) t).natAbs ≤ s.natAbs := by
      rw [Int.natAbs_tdiv, Int.natAbs_mul, Int.natAbs_tdiv, Int.natAbs_mul]
      have h1 : s.natAbs * t.natAbs / p.natAbs * p.natAbs ≤ s.natAbs * t.natAbs :=
        Nat.div_mul_le_self _ _
      have h2 : s.natAbs * t.natAbs / p.natAbs * p.natAbs / t.natAbs
          ≤ s.natAbs * t.natAbs / t.natAbs := Nat.div_le_div_right h1
      have h3 : s.natAbs * t.natAbs / t.natAbs = s.natAbs :=
        Nat.mul_div_cancel s.natAbs (Int.natAbs_pos.mpr ht)
      calc (s.natAbs * t.natAbs).div p.natAbs * p.natAbs / t.natAbs
          ≤ s.natAbs * t.natAbs / t.natAbs := h2
        _ = s.natAbs := h3
    calc Int.tdiv (Int.tdiv (s * t) p * p) t
        ≤ ((Int.tdiv (Int.tdiv (s * t) p * p) t).natAbs : Int) := Int.le_natAbs
      _ ≤ (s.natAbs : Int) := by exact_mod_cast habs
      _ = s := Int.natAbs_of_nonneg hs

/-- C3: with the state fixed, the round-down conversions never manufacture
    value on a round trip: converting `s` shares to assets and back yields at
    most `s` shares, and converting `a` assets to shares and back yields at
    most `a` assets, for any non-negative `s`, `a` and any state in which
    both calls complete. -/
theorem C3_round_trip_le (w : World) :
    (∀ s a sh : Int, 0 ≤ s →
      Vault.convert_to_assets w s = some a →
      Vault.convert_to_shares w a = some sh → sh ≤ s) ∧
    (∀ a s as2 : Int, 0 ≤ a →
      Vault.convert_to_shares w a = some s →
      Vault.convert_to_assets w s = some as2 → as2 ≤ a) := by
  constructor
  · intro s a sh hs h1 h2
    rcases convert_to_assets_false_inv h1 with ⟨hg, hya⟩ | ⟨hg, hya⟩
    · rcases convert_to_shares_false_inv h2 with ⟨_, hys⟩ | ⟨hg2, _⟩
      · omega
      · exact absurd hg hg2.elim
    · rcases convert_to_shares_false_inv h2 with ⟨hg2, _⟩ | ⟨_, hys⟩
      · exact absurd hg2 hg
      · subst hya
        subst hys
        exact tdiv_round_trip_le s (Token.balance w.token w.self)
          (Vault.total_supply w.vault) hs
  · intro a s as2 ha h1 h2
    rcases convert_to_shares_false_inv h1 with ⟨hg, hya⟩ | ⟨hg, hya⟩
    · rcases convert_to_assets_false_inv h2 with ⟨_, hys⟩ | ⟨hg2, _⟩
      · omega
      · exact absurd hg hg2.elim
    · rcases convert_to_assets_false_inv h2 with ⟨hg2, _⟩ | ⟨_, hys⟩
      · exact absurd hg2 hg
      · subst hya
        subst hys
        exact tdiv_round_trip_le a (Vault.total_supply w.vault)
          (Token.balance w.token w.self) ha

/-- Witness for `C3_round_trip_le` at the world `w2` (supply 2, total 3):
    5 shares convert to `(5*3)/2 = 7` assets, which convert back to
    `(7*2)/3 = 4 ≤ 5` shares. -/
theorem C3_round_trip_le_witness :
    Vault.convert_to_assets w2 5 = some 7 ∧
    Vault.convert_to_shares w2 7 = some 4 ∧ (4 : Int) ≤ 5 :=
  ⟨by decide, by decide,
   (C3_round_trip_le w2).1 5 7 4 (by decide) (by decide) (by decide)⟩

/-! ## C6 amended -/

/-- C6 (amended): for every state with the asset key set, positive supply
    and custodian total, and non-negative input, the conversion functions
    compute the product `assets * supply` (resp. `shares * total`) directly
    in `i128` — there is no double-width intermediate.  Consequently they
    return the exact floor/ceiling value precisely when that product fits in
    `i128`, and trap when it exceeds `i128::MAX`, even if the final result
    would fit (`C6_counterexample_overflow_trap`). -/
theorem C6_product_in_i128_not_double_width (w : World) (aAddr : Addr)
    (ha : w.vault.asset = some aAddr)
    (hs : 0 < Vault.total_supply w.vault)
    (ht : 0 < Token.balance w.token w.self) :
    (∀ assets ru, 0 ≤ assets →
      (assets * Vault.total_supply w.vault ≤ i128Max →
        Vault.convert_to_shares_internal w assets ru
          = some (specToShares (Vault.total_supply w.vault)
              (Token.balance w.token w.self) assets ru)) ∧
      (i128Max < assets * Vault.total_supply w.vault →
        Vault.convert_to_shares_internal w assets ru = none)) ∧
    (∀ shares ru, 0 ≤ shares →
      (shares * Token.balance w.token w.self ≤ i128Max →
        Vault.convert_to_assets_internal w shares ru
          = some (specToAssets (Vault.total_supply w.vault)
              (Token.balance w.token w.self) shares ru)) ∧
      (i128Max < shares * Token.balance w.token w.self →
        Vault.convert_to_assets_internal w shares ru = none)) := by
  constructor
  · intro assets ru h0
    constructor
    · intro hmax
      exact convert_to_shares_refines_spec w aAddr ha assets ru h0 hs.le ht.le hmax
    · intro hmax
      exact convert_to_shares_overflow w aAddr ha assets ru (ne_of_gt hs) (ne_of_gt ht) hmax
  · intro shares ru h0
    constructor
    · intro hmax
      exact convert_to_assets_refines_spec w aAddr ha shares ru h0 hs.le ht.le hmax
    · intro hmax
      exact convert_to_assets_overflow w aAddr ha shares ru (ne_of_gt hs) (ne_of_gt ht) hmax

/-- Witness for `C6_product_in_i128_not_double_width` at the world `w6`:
    the in-range product `1 * 2^100` converts exactly, while the
    out-of-range product `2^30 * 2^100` traps. -/
theorem C6_product_in_i128_not_double_width_witness :
    Vault.convert_to_shares_internal w6 1 false
      = some (specToShares (Vault.total_supply w6.vault)
          (Token.balance w6.token w6.self) 1 false) ∧
    Vault.convert_to_shares_internal w6 (2 ^ 30) false = none :=
  ⟨((C6_product_in_i128_not_double_width w6 5 rfl (by decide) (by decide)).1 1 false
      (by decide)).1 (by decide),
   ((C6_product_in_i128_not_double_width w6 5 rfl (by decide) (by decide)).1 (2 ^ 30) false
      (by decide)).2 (by decide)⟩

/-! ## C8 -/

/-- C8: error taxonomy of the four vault operations.  Each operation checks
    its input amount first (`ZeroAssets` for deposit/withdraw, `ZeroShares`
    for mint/redeem, exactly when that input is `≤ 0`), and only then checks
    the converted amount (`ZeroShares` for deposit/withdraw, `ZeroAssets`
    for mint/redeem, exactly when the computed conversion is `≤ 0`); in all
    these cases the returned state is the unchanged pre-call state. -/
theorem C8_zero_amount_error_taxonomy (w : World) (x : Int) (r o : Addr) :
    (Vault.deposit w x r = (w, .err .ZeroAssets) ↔ x ≤ 0) ∧
    (Vault.deposit w x r = (w, .err .ZeroShares) ↔
      (0 < x ∧ ∃ sh, Vault.convert_to_shares_internal w x false = some sh ∧ sh ≤ 0)) ∧
    (Vault.mint w x r = (w, .err .ZeroShares) ↔ x ≤ 0) ∧
    (Vault.mint w x r = (w, .err .ZeroAssets) ↔
      (0 < x ∧ ∃ a0, Vault.convert_to_assets_internal w x true = some a0 ∧ a0 ≤ 0)) ∧
    (Vault.withdraw w x r o = (w, .err .ZeroAssets) ↔ x ≤ 0) ∧
    (Vault.withdraw w x r o = (w, .err .ZeroShares) ↔
      (0 < x ∧ ∃ sh, Vault.convert_to_shares_internal w x true = some sh ∧ sh ≤ 0)) ∧
    (Vault.redeem w x r o = (w, .err .ZeroShares) ↔ x ≤ 0) ∧
    (Vault.redeem w x r o = (w, .err .ZeroAssets) ↔
      (0 < x ∧ ∃ a0, Vault.convert_to_assets_internal w x false = some a0 ∧ a0 ≤ 0)) := by
  refine ⟨⟨?_, ?_⟩, ⟨?_, ?_⟩, ⟨?_, ?_⟩, ⟨?_, ?_⟩, ⟨?_, ?_⟩, ⟨?_, ?_⟩, ⟨?_, ?_⟩, ⟨?_, ?_⟩⟩
  · intro h
    rcases (deposit_err_inv h).2 with ⟨-, hx⟩ | ⟨he, -⟩
    · exact hx
    · simp at he
  · intro h
    simp [Vault.deposit, h]
  · intro h
    rcases (deposit_err_inv h).2 with ⟨he, -⟩ | ⟨-, hx, hex⟩
    · simp at he
    · exact ⟨hx, hex⟩
  · rintro ⟨hx, sh, hc, hsh⟩
    simp [Vault.deposit, show ¬ x ≤ 0 by omega, hc, hsh]
  · intro h
    rcases (mint_err_inv h).2 with ⟨-, hx⟩ | ⟨he, -⟩
    · exact hx
    · simp at he
  · intro h
    simp [Vault.mint, h]
  · intro h
    rcases (mint_err_inv h).2 with ⟨he, -⟩ | ⟨-, hx, hex⟩
    · simp at he
    · exact ⟨hx, hex⟩
  · rintro ⟨hx, a0, hc, ha0⟩
    simp [Vault.mint, show ¬ x ≤ 0 by omega, hc, ha0]
  · intro h
    rcases withdraw_err_inv h with ⟨-, -, hx⟩ | ⟨he, -⟩ | ⟨he, -⟩ | ⟨he, -⟩
    · exact hx
    · simp at he
    · simp at he
    · simp at he
  · intro h
    simp [Vault.withdraw, h]
  · intro h
    rcases withdraw_err_inv h with ⟨he, -⟩ | ⟨-, -, hx, hex⟩ | ⟨he, -⟩ | ⟨he, -⟩
    · simp at he
    · exact ⟨hx, hex⟩
    · simp at he
    · simp at he
  · rintro ⟨hx, sh, hc, hsh⟩
    simp [Vault.withdraw, show ¬ x ≤ 0 by omega, hc, hsh]
  · intro h
    rcases redeem_err_inv h with ⟨-, -, hx⟩ | ⟨he, -⟩ | ⟨he, -⟩ | ⟨he, -⟩
    · exact hx
    · simp at he
    · simp at he
    · simp at he
  · intro h
    simp [Vault.redeem, h]
  · intro h
    rcases redeem_err_inv h with ⟨he, -⟩ | ⟨-, -, hx, hex⟩ | ⟨he, -⟩ | ⟨he, -⟩
    · simp at he
    · exact ⟨hx, hex⟩
    · simp at he
    · simp at he
  · rintro ⟨hx, a0, hc, ha0⟩
    simp [Vault.redeem, show ¬ x ≤ 0 by omega, hc, ha0]

/-- Witness for `C8_zero_amount_error_taxonomy`: on the concrete world `w4`,
    `deposit 0` fails `ZeroAssets` and `mint 0` fails `ZeroShares`, each with
    the state unchanged. -/
theorem C8_zero_amount_error_taxonomy_witness :
    Vault.deposit w4 0 1 = (w4, .err .ZeroAssets) ∧
    Vault.mint w4 0 1 = (w4, .err .ZeroShares) :=
  ⟨(C8_zero_amount_error_taxonomy w4 0 1 1).1.mpr (by decide),
   (C8_zero_amount_error_taxonomy w4 0 1 1).2.2.1.mpr (by decide)⟩

/-! ## C7 -/

theorem burn_ok_allowances {w : World} {a : Addr} {amt : Int} {w' : World} {u : Unit}
    (h : Vault.burn_internal w a amt = (w', .ok u)) (o sp : Addr) :
    Vault.allowance w'.vault o sp = Vault.allowance w.vault o sp := by
  obtain ⟨-, -, -, hv, -⟩ := burn_internal_ok_inv h
  rw [hv]
  rfl

theorem transfer_internal_ok_allowances {w : World} {fr dst : Addr} {amt : Int} {w' : World}
    {u : Unit} (h : Vault.transfer_internal w fr dst amt = (w', .ok u)) (o sp : Addr) :
    Vault.allowance w'.vault o sp = Vault.allowance w.vault o sp := by
  obtain ⟨-, -, -, hv⟩ := transfer_internal_ok_inv h
  rw [hv]
  rfl

/-- Run a list of `transfer_from` invocations (spender, from, to, amount)
    under the host's commit-on-success semantics. -/
def runTFList (w : World) : List (Addr × Addr × Addr × Int) → World
  | [] => w
  | c :: rest =>
      runTFList (commit w (Vault.transfer_from w c.1 c.2.1 c.2.2.1 c.2.2.2)).1 rest

/-- A sentinel (`i128::MAX`) allowance survives any single committed
    `transfer_from` invocation, whatever its arguments and outcome. -/
theorem transfer_from_preserves_max {w : World} {fr sp : Addr}
    (hmax : Vault.allowance w.vault fr sp = i128Max) (sp' fr' dst' : Addr) (amt : Int) :
    Vault.allowance ((commit w (Vault.transfer_from w sp' fr' dst' amt)).1).vault fr sp
      = i128Max := by
  rcases hres : Vault.transfer_from w sp' fr' dst' amt with ⟨wt, rt⟩
  cases rt with
  | err e =>
    simpa [commit] using hmax
  | trap =>
    simpa [commit] using hmax
  | ok b =>
    simp only [commit]
    obtain ⟨hal, w1, route, hti⟩ := transfer_from_ok_inv hres
    rw [transfer_internal_ok_allowances hti]
    rcases route with ⟨-, hw1⟩ | ⟨hne, hw1⟩
    · rw [hw1]
      exact hmax
    · by_cases hp : fr = fr' ∧ sp = sp'
      · exfalso
        apply hne
        rw [← hp.1, ← hp.2]
        exact hmax
      · rw [hw1]
        have := allowance_setAllow_other w.vault fr' sp' fr sp
          (Vault.allowance w.vault fr' sp' - amt) hp
        calc Vault.allowance
              { w with vault := (Vault.setAllow w.vault fr' sp'
                  (Vault.allowance w.vault fr' sp' - amt)) }.vault fr sp
            = Vault.allowance (Vault.setAllow w.vault fr' sp'
                (Vault.allowance w.vault fr' sp' - amt)) fr sp := rfl
          _ = Vault.allowance w.vault fr sp := this
          _ = i128Max := hmax

/-- C7: allowance discipline of the delegated operations.  For `withdraw`
    and `redeem` with a caller distinct from the owner: once the amount
    checks pass, an allowance below the share cost fails the call with
    `InsufficientAllowance`; on success the allowance is decremented by
    exactly the share amount unless it is the `i128::MAX` sentinel, which is
    left untouched.  `transfer_from` behaves the same with respect to
    `allowance(from, spender)` and `amount`, and consequently a sentinel
    allowance survives any sequence of `transfer_from` invocations. -/
theorem C7_allowance_spending_rules :
    (∀ (w : World) (assets : Int) (r o : Addr) (sh : Int),
      w.self ≠ o → 0 < assets →
      Vault.convert_to_shares_internal w assets true = some sh → 0 < sh →
      Vault.allowance w.vault o w.self < sh →
      Vault.withdraw w assets r o = (w, .err .InsufficientAllowance)) ∧
    (∀ (w : World) (assets : Int) (r o : Addr) (w' : World) (v : Int),
      w.self ≠ o → Vault.withdraw w assets r o = (w', .ok v) →
      (Vault.allowance w.vault o w.self = i128Max →
        Vault.allowance w'.vault o w.self = i128Max) ∧
      (Vault.allowance w.vault o w.self ≠ i128Max →
        Vault.allowance w'.vault o w.self = Vault.allowance w.vault o w.self - v)) ∧
    (∀ (w : World) (shares : Int) (r o : Addr) (a0 : Int),
      w.self ≠ o → 0 < shares →
      Vault.convert_to_assets_internal w shares false = some a0 → 0 < a0 →
      Vault.allowance w.vault o w.self < shares →
      Vault.redeem w shares r o = (w, .err .InsufficientAllowance)) ∧
    (∀ (w : World) (shares : Int) (r o : Addr) (w' : World) (v : Int),
      w.self ≠ o → Vault.redeem w shares r o = (w', .ok v) →
      (Vault.allowance w.vault o w.self = i128Max →
        Vault.allowance w'.vault o w.self = i128Max) ∧
      (Vault.allowance w.vault o w.self ≠ i128Max →
        Vault.allowance w'.vault o w.self = Vault.allowance w.vault o w.self - shares)) ∧
    (∀ (w : World) (sp fr dst : Addr) (amount : Int),
      Vault.allowance w.vault fr sp < amount →
      Vault.transfer_from w sp fr dst amount = (w, .err .InsufficientAllowance)) ∧
    (∀ (w : World) (sp fr dst : Addr) (amount : Int) (w' : World) (b : Bool),
      Vault.transfer_from w sp fr dst amount = (w', .ok b) →
      (Vault.allowance w.vault fr sp = i128Max →
        Vault.allowance w'.vault fr sp = i128Max) ∧
      (Vault.allowance w.vault fr sp ≠ i128Max →
        Vault.allowance w'.vault fr sp = Vault.allowance w.vault fr sp - amount)) ∧
    (∀ (w : World) (fr sp : Addr), Vault.allowance w.vault fr sp = i128Max →
      ∀ calls : List (Addr × Addr × Addr × Int),
        Vault.allowance (runTFList w calls).vault fr sp = i128Max) := by
  refine ⟨?_, ?_, ?_, ?_, ?_, ?_, ?_⟩
  · intro w assets r o sh hno hx hc hsh hal
    have h1 : ¬ assets ≤ 0 := by omega
    have h2 : ¬ sh ≤ 0 := by omega
    simp [Vault.withdraw, h1, hc, h2, hno, hal, andThen]
  · intro w assets r o w' v hno h
    obtain ⟨sh, w1, w2, -, -, -, hv, hroute, hburn, t3, -, hw'⟩ := withdraw_ok_inv h
    have hall : ∀ o' sp', Vault.allowance w'.vault o' sp' = Vault.allowance w1.vault o' sp' := by
      intro o' sp'
      have h0 : Vault.allowance w'.vault o' sp' = Vault.allowance w2.vault o' sp' := by
        rw [hw']
      rw [h0, burn_ok_allowances hburn]
    rcases hroute with ⟨ho, -⟩ | ⟨-, hmax, -, hw1⟩ | ⟨-, hmax, -, hw1⟩
    · exact absurd ho hno
    · constructor
      · intro _
        rw [hall, hw1]
        exact hmax
      · intro hne
        exact absurd hmax hne
    · constructor
      · intro hmx
        exact absurd hmx hmax
      · intro _
        rw [hall, hw1, hv]
        exact allowance_setAllow_same w.vault o w.self _
  · intro w shares r o a0 hno hx hc ha0 hal
    have h1 : ¬ shares ≤ 0 := by omega
    have h2 : ¬ a0 ≤ 0 := by omega
    simp [Vault.redeem, h1, hc, h2, hno, hal, andThen]
  · intro w shares r o w' v hno h
    obtain ⟨a0, w1, w2, -, -, -, hv, hroute, hburn, t3, -, hw'⟩ := redeem_ok_inv h
    have hall : ∀ o' sp', Vault.allowance w'.vault o' sp' = Vault.allowance w1.vault o' sp' := by
      intro o' sp'
      have h0 : Vault.allowance w'.vault o' sp' = Vault.allowance w2.vault o' sp' := by
        rw [hw']
      rw [h0, burn_ok_allowances hburn]
    rcases hroute with ⟨ho, -⟩ | ⟨-, hmax, -, hw1⟩ | ⟨-, hmax, -, hw1⟩
    · exact absurd ho hno
    · constructor
      · intro _
        rw [hall, hw1]
        exact hmax
      · intro hne
        exact absurd hmax hne
    · constructor
      · intro hmx
        exact absurd hmx hmax
      · intro _
        rw [hall, hw1]
        exact allowance_setAllow_same w.vault o w.self _
  · intro w sp fr dst amount hal
    simp [Vault.transfer_from, hal]
  · intro w sp fr dst amount w' b h
    obtain ⟨hal, w1, route, hti⟩ := transfer_from_ok_inv h
    have hall : Vault.allowance w'.vault fr sp = Vault.allowance w1.vault fr sp :=
      transfer_internal_ok_allowances hti fr sp
    rcases route with ⟨hmax, hw1⟩ | ⟨hne, hw1⟩
    · constructor
      · intro _
        rw [hall, hw1]
        exact hmax
      · intro hne2
        exact absurd hmax hne2
    · constructor
      · intro hmx
        exact absurd hmx hne
      · intro _
        rw [hall, hw1]
        exact allowance_setAllow_same w.vault fr sp _
  · intro w fr sp hmax calls
    induction calls generalizing w with
    | nil => exact hmax
    | cons c rest ih =>
      exact ih _ (transfer_from_preserves_max hmax c.1 c.2.1 c.2.2.1 c.2.2.2)

/-- Initialized world for the C7 witness: vault at 0, supply 100, owner 1
    holds 100 shares and grants allowance 80 to the vault; custodian holds
    100 tokens for the vault. -/
def w7 : World :=
  { self := 0,
    vault := { asset := some 5, name := some "Test Vault", symbol := some "TVAULT",
               decimals := some 18, totalSupply := some 100,
               balances := fun a => if a = 1 then some 100 else none,
               allowances := fun o sp => if o = 1 ∧ sp = 0 then some 80 else none },
    token := { balances := fun a => if a = 0 then some 100 else none,
               totalSupply := some 100 } }

/-- Witness for `C7_allowance_spending_rules`: in `w7`, `withdraw(50, 2, 1)`
    by the non-owner caller succeeds, burns 50 shares, and decrements the
    allowance from 80 by exactly the 50 shares spent. -/
theorem C7_allowance_spending_rules_witness :
    Vault.allowance w7.vault 1 0 = 80 ∧
    Vault.withdraw w7 50 2 1 = ((Vault.withdraw w7 50 2 1).1, .ok 50) ∧
    Vault.allowance ((Vault.withdraw w7 50 2 1).1).vault 1 0
      = Vault.allowance w7.vault 1 0 - 50 :=
  ⟨by decide, rfl,
   (C7_allowance_spending_rules.2.1 w7 50 2 1 (Vault.withdraw w7 50 2 1).1 50
      (by decide) rfl).2 (by decide)⟩

/-! ## C9 -/

/-- The host commit discards the failing invocation's world: an `Err`
    outcome commits the pre-call state. -/
theorem commit_err_rolls_back {α : Type} (w : World) (R : World × VRes α) (e : Error)
    (h : (commit w R).2 = .err e) : (commit w R).1 = w := by
  rcases R with ⟨w1, r⟩
  cases r with
  | ok a => simp [commit] at h
  | err e2 => simp [commit]
  | trap => simp [commit] at h

/-- Initialized world for the C9 demonstration: supply 100, owner 1 holds
    only 10 shares but grants allowance 80 to the vault; custodian holds 100
    tokens for the vault. -/
def w9 : World :=
  { self := 0,
    vault := { asset := some 5, name := some "Test Vault", symbol := some "TVAULT",
               decimals := some 18, totalSupply := some 100,
               balances := fun a => if a = 1 then some 10 else none,
               allowances := fun o sp => if o = 1 ∧ sp = 0 then some 80 else none },
    token := { balances := fun a => if a = 0 then some 100 else none,
               totalSupply := some 100 } }

/-- C9: no partial commit on failure.  For every public mutating operation,
    whenever the host-level (committed) outcome is an error, the committed
    state is exactly the pre-call state — modelled from the spec's
    transactional-rollback guarantee (`commit`).  In particular, in `w9` a
    non-owner `withdraw` passes the allowance step (decrementing 80 to 30 in
    the invocation's working state) and then fails `InsufficientBalance` at
    the burn step, yet the committed state keeps the allowance at 80. -/
theorem C9_failure_rolls_back_state :
    (∀ (w : World) (a : Addr) (nm sym : String) (dec : Nat) (e : Error),
      (commit w (Vault.initVault w a nm sym dec)).2 = .err e →
      (commit w (Vault.initVault w a nm sym dec)).1 = w) ∧
    (∀ (w : World) (fr dst : Addr) (amt : Int) (e : Error),
      (commit w (Vault.transfer w fr dst amt)).2 = .err e →
      (commit w (Vault.transfer w fr dst amt)).1 = w) ∧
    (∀ (w : World) (sp fr dst : Addr) (amt : Int) (e : Error),
      (commit w (Vault.transfer_from w sp fr dst amt)).2 = .err e →
      (commit w (Vault.transfer_from w sp fr dst amt)).1 = w) ∧
    (∀ (w : World) (x : Int) (r : Addr) (e : Error),
      (commit w (Vault.deposit w x r)).2 = .err e →
      (commit w (Vault.deposit w x r)).1 = w) ∧
    (∀ (w : World) (x : Int) (r : Addr) (e : Error),
      (commit w (Vault.mint w x r)).2 = .err e →
      (commit w (Vault.mint w x r)).1 = w) ∧
    (∀ (w : World) (x : Int) (r o : Addr) (e : Error),
      (commit w (Vault.withdraw w x r o)).2 = .err e →
      (commit w (Vault.withdraw w x r o)).1 = w) ∧
    (∀ (w : World) (x : Int) (r o : Addr) (e : Error),
      (commit w (Vault.redeem w x r o)).2 = .err e →
      (commit w (Vault.redeem w x r o)).1 = w) ∧
    ((Vault.withdraw w9 50 2 1).2 = .err .InsufficientBalance ∧
     Vault.allowance ((Vault.withdraw w9 50 2 1).1).vault 1 0 = 30 ∧
     (commit w9 (Vault.withdraw w9 50 2 1)).1 = w9 ∧
     Vault.allowance ((commit w9 (Vault.withdraw w9 50 2 1)).1).vault 1 0 = 80) := by
  refine ⟨fun w a nm sym dec e h => commit_err_rolls_back w _ e h,
    fun w fr dst amt e h => commit_err_rolls_back w _ e h,
    fun w sp fr dst amt e h => commit_err_rolls_back w _ e h,
    fun w x r e h => commit_err_rolls_back w _ e h,
    fun w x r e h => commit_err_rolls_back w _ e h,
    fun w x r o e h => commit_err_rolls_back w _ e h,
    fun w x r o e h => commit_err_rolls_back w _ e h,
    by decide, by decide, ?_, by decide⟩
  rfl

/-- Witness for `C9_failure_rolls_back_state`: the withdraw component
    applied at the concrete failing invocation in `w9`. -/
theorem C9_failure_rolls_back_state_witness :
    (commit w9 (Vault.withdraw w9 50 2 1)).1 = w9 :=
  C9_failure_rolls_back_state.2.2.2.2.2.2.1 w9 50 2 1 .InsufficientBalance (by decide)

/-! ## C1: the supply / balance-sum invariant -/

/-- The vault's balance map has finite support `S`, and the stored total
    supply equals the sum of the balances over `S`. -/
def SupplyInv (s : VaultStore) : Prop :=
  ∃ S : Finset Addr, (∀ a, a ∉ S → s.balances a = none) ∧
    Vault.total_supply s = ∑ a ∈ S, Vault.balance_of s a

theorem sum_update_mem {S : Finset Addr} {a : Addr} (ha : a ∈ S) (f : Addr → Int) (v : Int) :
    ∑ x ∈ S, Function.update f a v x = (∑ x ∈ S, f x) - f a + v := by
  rw [Finset.sum_update_of_mem ha]
  have h2 : ∑ x ∈ S.erase a, f x + f a = ∑ x ∈ S, f x := Finset.sum_erase_add S f ha
  rw [Finset.sdiff_singleton_eq_erase]
  omega

/-- Under `SupplyInv`, the total supply equals the balance sum over ANY
    finite set that contains every account with a nonzero balance. -/
theorem SupplyInv_sum_any {s : VaultStore} (h : SupplyInv s) (T : Finset Addr)
    (hT : ∀ a, a ∉ T → Vault.balance_of s a = 0) :
    Vault.total_supply s = ∑ a ∈ T, Vault.balance_of s a := by
  obtain ⟨S, hS, hsum⟩ := h
  have h1 : ∑ a ∈ T, Vault.balance_of s a = ∑ a ∈ T ∪ S, Vault.balance_of s a :=
    Finset.sum_subset Finset.subset_union_left (fun x _ hx => hT x hx)
  have h2 : ∑ a ∈ S, Vault.balance_of s a = ∑ a ∈ T ∪ S, Vault.balance_of s a :=
    Finset.sum_subset Finset.subset_union_right
      (fun x _ hx => by unfold Vault.balance_of; rw [hS x hx]; rfl)
  rw [hsum, h2, ← h1]

/-- `SupplyInv` only looks at the balance map and the stored supply. -/
theorem SupplyInv_of_eq {s s' : VaultStore} (hb : s'.balances = s.balances)
    (ht : s'.totalSupply = s.totalSupply) (h : SupplyInv s) : SupplyInv s' := by
  obtain ⟨S, hS, hsum⟩ := h
  refine ⟨S, ?_, ?_⟩
  · intro a ha
    rw [hb]
    exact hS a ha
  · have hbo : ∀ a, Vault.balance_of s' a = Vault.balance_of s a := by
      intro a
      unfold Vault.balance_of
      rw [hb]
    have hts : Vault.total_supply s' = Vault.total_supply s := by
      unfold Vault.total_supply
      rw [ht]
    rw [hts, hsum]
    exact Finset.sum_congr rfl (fun a _ => (hbo a).symm)

theorem sum_insert_zero {S : Finset Addr} {f : Addr → Int} {a : Addr}
    (h : a ∉ S → f a = 0) : ∑ x ∈ insert a S, f x = ∑ x ∈ S, f x := by
  by_cases haS : a ∈ S
  · rw [Finset.insert_eq_self.mpr haS]
  · rw [Finset.sum_insert haS, h haS]
    ring

theorem balance_of_none_zero {s : VaultStore} {a : Addr} (h : s.balances a = none) :
    Vault.balance_of s a = 0 := by
  unfold Vault.balance_of
  rw [h]
  rfl

theorem SupplyInv_mint {w : World} {a : Addr} {amt : Int} {w' : World} {u : Unit}
    (h : Vault.mint_internal w a amt = (w', .ok u)) (hi : SupplyInv w.vault) :
    SupplyInv w'.vault := by
  obtain ⟨-, -, hv, -, -⟩ := mint_internal_ok_inv h
  obtain ⟨S, hS, hsum⟩ := hi
  have hbal : Vault.balance_of w'.vault
      = Function.update (Vault.balance_of w.vault) a (Vault.balance_of w.vault a + amt) := by
    rw [← balance_of_setBal]
    funext x
    unfold Vault.balance_of
    rw [hv]
    rfl
  have hts : Vault.total_supply w'.vault = Vault.total_supply w.vault + amt := by
    rw [hv]
    rfl
  refine ⟨insert a S, ?_, ?_⟩
  · intro x hx
    have hxa : x ≠ a := fun he => hx (he ▸ Finset.mem_insert_self a S)
    have hxS : x ∉ S := fun he => hx (Finset.mem_insert_of_mem he)
    have hbx : w'.vault.balances x = w.vault.balances x := by
      rw [hv]
      show Function.update w.vault.balances a
        (some (Vault.balance_of w.vault a + amt)) x = w.vault.balances x
      rw [Function.update_noteq hxa]
    rw [hbx]
    exact hS x hxS
  · have hmem : a ∈ insert a S := Finset.mem_insert_self a S
    have hsum2 : ∑ x ∈ insert a S, Vault.balance_of w'.vault x
        = ∑ x ∈ insert a S, Function.update (Vault.balance_of w.vault) a
            (Vault.balance_of w.vault a + amt) x :=
      Finset.sum_congr rfl (fun x _ => by rw [hbal])
    have hins : ∑ x ∈ insert a S, Vault.balance_of w.vault x
        = ∑ x ∈ S, Vault.balance_of w.vault x :=
      sum_insert_zero (fun haS => balance_of_none_zero (hS a haS))
    rw [hts, hsum2, sum_update_mem hmem, hins]
    omega

theorem SupplyInv_burn {w : World} {a : Addr} {amt : Int} {w' : World} {u : Unit}
    (h : Vault.burn_internal w a amt = (w', .ok u)) (hi : SupplyInv w.vault) :
    SupplyInv w'.vault := by
  obtain ⟨-, -, -, hv, -, -⟩ := burn_internal_ok_inv h
  obtain ⟨S, hS, hsum⟩ := hi
  have hbal : Vault.balance_of w'.vault
      = Function.update (Vault.balance_of w.vault) a (Vault.balance_of w.vault a - amt) := by
    rw [← balance_of_setBal]
    funext x
    unfold Vault.balance_of
    rw [hv]
    rfl
  have hts : Vault.total_supply w'.vault = Vault.total_supply w.vault - amt := by
    rw [hv]
    rfl
  refine ⟨insert a S, ?_, ?_⟩
  · intro x hx
    have hxa : x ≠ a := fun he => hx (he ▸ Finset.mem_insert_self a S)
    have hxS : x ∉ S := fun he => hx (Finset.mem_insert_of_mem he)
    have hbx : w'.vault.balances x = w.vault.balances x := by
      rw [hv]
      show Function.update w.vault.balances a
        (some (Vault.balance_of w.vault a - amt)) x = w.vault.balances x
      rw [Function.update_noteq hxa]
    rw [hbx]
    exact hS x hxS
  · have hmem : a ∈ insert a S := Finset.mem_insert_self a S
    have hsum2 : ∑ x ∈ insert a S, Vault.balance_of w'.vault x
        = ∑ x ∈ insert a S, Function.update (Vault.balance_of w.vault) a
            (Vault.balance_of w.vault a - amt) x :=
      Finset.sum_congr rfl (fun x _ => by rw [hbal])
    have hins : ∑ x ∈ insert a S, Vault.balance_of w.vault x
        = ∑ x ∈ S, Vault.balance_of w.vault x :=
      sum_insert_zero (fun haS => balance_of_none_zero (hS a haS))
    rw [hts, hsum2, sum_update_mem hmem, hins]
    omega

theorem SupplyInv_transfer {w : World} {fr dst : Addr} {amt : Int} {w' : World} {u : Unit}
    (h : Vault.transfer_internal w fr dst amt = (w', .ok u)) (hi : SupplyInv w.vault) :
    SupplyInv w'.vault := by
  obtain ⟨-, -, -, hv⟩ := transfer_internal_ok_inv h
  obtain ⟨S, hS, hsum⟩ := hi
  have hg : Vault.balance_of (Vault.setBal w.vault fr (Vault.balance_of w.vault fr - amt))
      = Function.update (Vault.balance_of w.vault) fr (Vault.balance_of w.vault fr - amt) :=
    balance_of_setBal _ _ _
  have hbal : Vault.balance_of w'.vault
      = Function.update
          (Function.update (Vault.balance_of w.vault) fr (Vault.balance_of w.vault fr - amt))
          dst
          (Function.update (Vault.balance_of w.vault) fr
            (Vault.balance_of w.vault fr - amt) dst + amt) := by
    rw [← hg, ← balance_of_setBal]
    funext x
    unfold Vault.balance_of
    rw [hv]
    rfl
  have hts : Vault.total_supply w'.vault = Vault.total_supply w.vault := by
    rw [hv]
    rfl
  refine ⟨insert fr (insert dst S), ?_, ?_⟩
  · intro x hx
    have hxf : x ≠ fr := fun he => hx (by rw [he]; exact Finset.mem_insert_self fr _)
    have hxd : x ≠ dst := fun he =>
      hx (by rw [he]; exact Finset.mem_insert_of_mem (Finset.mem_insert_self dst S))
    have hxS : x ∉ S := fun he =>
      hx (Finset.mem_insert_of_mem (Finset.mem_insert_of_mem he))
    have hbx : w'.vault.balances x = w.vault.balances x := by
      rw [hv]
      show Function.update (Vault.setBal w.vault fr
          (Vault.balance_of w.vault fr - amt)).balances dst _ x = w.vault.balances x
      rw [Function.update_noteq hxd]
      show Function.update w.vault.balances fr _ x = w.vault.balances x
      rw [Function.update_noteq hxf]
    rw [hbx]
    exact hS x hxS
  · have hmemf : fr ∈ insert fr (insert dst S) := Finset.mem_insert_self fr _
    have hmemd : dst ∈ insert fr (insert dst S) :=
      Finset.mem_insert_of_mem (Finset.mem_insert_self dst S)
    have hsum2 : ∑ x ∈ insert fr (insert dst S), Vault.balance_of w'.vault x
        = ∑ x ∈ insert fr (insert dst S), Function.update
            (Function.update (Vault.balance_of w.vault) fr
              (Vault.balance_of w.vault fr - amt)) dst
            (Function.update (Vault.balance_of w.vault) fr
              (Vault.balance_of w.vault fr - amt) dst + amt) x :=
      Finset.sum_congr rfl (fun x _ => by rw [hbal])
    have hstep1 := sum_update_mem hmemd
      (Function.update (Vault.balance_of w.vault) fr (Vault.balance_of w.vault fr - amt))
      (Function.update (Vault.balance_of w.vault) fr
        (Vault.balance_of w.vault fr - amt) dst + amt)
    have hstep2 := sum_update_mem hmemf (Vault.balance_of w.vault)
      (Vault.balance_of w.vault fr - amt)
    have hins : ∑ x ∈ insert fr (insert dst S), Vault.balance_of w.vault x
        = ∑ x ∈ S, Vault.balance_of w.vault x := by
      rw [sum_insert_zero, sum_insert_zero]
      · intro haS
        exact balance_of_none_zero (hS dst haS)
      · intro haI
        refine balance_of_none_zero (hS fr ?_)
        intro hfS
        exact haI (Finset.mem_insert_of_mem hfS)
    rw [hts, hsum2, hstep1, hstep2, hins]
    omega

theorem mint_ok_asset {w : World} {a : Addr} {amt : Int} {w' : World} {u : Unit}
    (h : Vault.mint_internal w a amt = (w', .ok u)) : w'.vault.asset = w.vault.asset := by
  obtain ⟨-, -, hv, -, -⟩ := mint_internal_ok_inv h
  rw [hv]
  rfl

theorem burn_ok_asset {w : World} {a : Addr} {amt : Int} {w' : World} {u : Unit}
    (h : Vault.burn_internal w a amt = (w', .ok u)) : w'.vault.asset = w.vault.asset := by
  obtain ⟨-, -, -, hv, -, -⟩ := burn_internal_ok_inv h
  rw [hv]
  rfl

theorem transfer_internal_ok_asset {w : World} {fr dst : Addr} {amt : Int} {w' : World}
    {u : Unit} (h : Vault.transfer_internal w fr dst amt = (w', .ok u)) :
    w'.vault.asset = w.vault.asset := by
  obtain ⟨-, -, -, hv⟩ := transfer_internal_ok_inv h
  rw [hv]
  rfl

/-- The inductive invariant: the asset key is set (so re-initialization
    fails) and the supply/balance-sum property holds. -/
def VaultInv (w : World) : Prop := w.vault.asset.isSome ∧ SupplyInv w.vault

/-- One committed invocation of a public operation of the contract (failed
    invocations commit the unchanged state), or an arbitrary change of the
    external custodian's state. -/
inductive Step : World → World → Prop where
  | initStep (w : World) (a : Addr) (nm sym : String) (dec : Nat) :
      Step w (commit w (Vault.initVault w a nm sym dec)).1
  | transferStep (w : World) (fr dst : Addr) (amt : Int) :
      Step w (commit w (Vault.transfer w fr dst amt)).1
  | approveStep (w : World) (fr sp : Addr) (amt : Int) :
      Step w (commit w (Vault.approve w fr sp amt)).1
  | transferFromStep (w : World) (sp fr dst : Addr) (amt : Int) :
      Step w (commit w (Vault.transfer_from w sp fr dst amt)).1
  | depositStep (w : World) (x : Int) (r : Addr) :
      Step w (commit w (Vault.deposit w x r)).1
  | mintStep (w : World) (x : Int) (r : Addr) :
      Step w (commit w (Vault.mint w x r)).1
  | withdrawStep (w : World) (x : Int) (r o : Addr) :
      Step w (commit w (Vault.withdraw w x r o)).1
  | redeemStep (w : World) (x : Int) (r o : Addr) :
      Step w (commit w (Vault.redeem w x r o)).1
  | tokenStep (w : World) (t : TokenStore) :
      Step w { w with token := t }

/-- Worlds reachable from a freshly initialized vault (initialize run on an
    empty storage) by any sequence of committed public operations and
    external custodian activity. -/
inductive Reach : World → Prop where
  | init (self aA : Addr) (nm sym : String) (dec : Nat) (tok : TokenStore) :
      Reach (commit { self := self, vault := emptyVault, token := tok }
        (Vault.initVault { self := self, vault := emptyVault, token := tok }
          aA nm sym dec)).1
  | step {w w' : World} : Reach w → Step w w' → Reach w'

theorem step_preserves {w w' : World} (hs : Step w w') (hi : VaultInv w) : VaultInv w' := by
  cases hs with
  | initStep a nm sym dec =>
    have hA : w.vault.asset.isSome := hi.1
    have hfail : Vault.initVault w a nm sym dec = (w, .err .InvalidAddress) := by
      simp [Vault.initVault, hA]
    rw [hfail]
    simpa [commit] using hi
  | transferStep fr dst amt =>
    rcases hres : Vault.transfer w fr dst amt with ⟨wt, rt⟩
    cases rt with
    | err e => simpa [commit] using hi
    | trap => simpa [commit] using hi
    | ok b =>
      simp only [commit]
      have hti := transfer_ok_inv hres
      exact ⟨by rw [transfer_internal_ok_asset hti]; exact hi.1,
        SupplyInv_transfer hti hi.2⟩
  | approveStep fr sp amt =>
    simp only [Vault.approve, commit]
    exact ⟨hi.1, SupplyInv_of_eq rfl rfl hi.2⟩
  | transferFromStep sp fr dst amt =>
    rcases hres : Vault.transfer_from w sp fr dst amt with ⟨wt, rt⟩
    cases rt with
    | err e => simpa [commit] using hi
    | trap => simpa [commit] using hi
    | ok b =>
      simp only [commit]
      obtain ⟨-, w1, route, hti⟩ := transfer_from_ok_inv hres
      have hi1 : VaultInv w1 := by
        rcases route with ⟨-, hw1⟩ | ⟨-, hw1⟩
        · rw [hw1]
          exact hi
        · rw [hw1]
          exact ⟨hi.1, SupplyInv_of_eq rfl rfl hi.2⟩
      exact ⟨by rw [transfer_internal_ok_asset hti]; exact hi1.1,
        SupplyInv_transfer hti hi1.2⟩
  | depositStep x r =>
    rcases hres : Vault.deposit w x r with ⟨wt, rt⟩
    cases rt with
    | err e => simpa [commit] using hi
    | trap => simpa [commit] using hi
    | ok v =>
      simp only [commit]
      obtain ⟨sh, t1, -, -, -, -, -, hm⟩ := deposit_ok_inv hres
      have hi1 : VaultInv { w with token := t1 } := ⟨hi.1, hi.2⟩
      exact ⟨by rw [mint_ok_asset hm]; exact hi1.1, SupplyInv_mint hm hi1.2⟩
  | mintStep x r =>
    rcases hres : Vault.mint w x r with ⟨wt, rt⟩
    cases rt with
    | err e => simpa [commit] using hi
    | trap => simpa [commit] using hi
    | ok v =>
      simp only [commit]
      obtain ⟨a0, t1, -, -, -, -, -, hm⟩ := mint_ok_inv hres
      have hi1 : VaultInv { w with token := t1 } := ⟨hi.1, hi.2⟩
      exact ⟨by rw [mint_ok_asset hm]; exact hi1.1, SupplyInv_mint hm hi1.2⟩
  | withdrawStep x r o =>
    rcases hres : Vault.withdraw w x r o with ⟨wt, rt⟩
    cases rt with
    | err e => simpa [commit] using hi
    | trap => simpa [commit] using hi
    | ok v =>
      simp only [commit]
      obtain ⟨sh, w1, w2, -, -, -, -, route, hb, t3, -, hw'⟩ := withdraw_ok_inv hres
      have hi1 : VaultInv w1 := by
        rcases route with ⟨-, hw1⟩ | ⟨-, -, -, hw1⟩ | ⟨-, -, -, hw1⟩
        · rw [hw1]
          exact hi
        · rw [hw1]
          exact hi
        · rw [hw1]
          exact ⟨hi.1, SupplyInv_of_eq rfl rfl hi.2⟩
      have hi2 : VaultInv w2 :=
        ⟨by rw [burn_ok_asset hb]; exact hi1.1, SupplyInv_burn hb hi1.2⟩
      rw [hw']
      exact ⟨hi2.1, SupplyInv_of_eq rfl rfl hi2.2⟩
  | redeemStep x r o =>
    rcases hres : Vault.redeem w x r o with ⟨wt, rt⟩
    cases rt with
    | err e => simpa [commit] using hi
    | trap => simpa [commit] using hi
    | ok v =>
      simp only [commit]
      obtain ⟨a0, w1, w2, -, -, -, -, route, hb, t3, -, hw'⟩ := redeem_ok_inv hres
      have hi1 : VaultInv w1 := by
        rcases route with ⟨-, hw1⟩ | ⟨-, -, -, hw1⟩ | ⟨-, -, -, hw1⟩
        · rw [hw1]
          exact hi
        · rw [hw1]
          exact hi
        · rw [hw1]
          exact ⟨hi.1, SupplyInv_of_eq rfl rfl hi.2⟩
      have hi2 : VaultInv w2 :=
        ⟨by rw [burn_ok_asset hb]; exact hi1.1, SupplyInv_burn hb hi1.2⟩
      rw [hw']
      exact ⟨hi2.1, SupplyInv_of_eq rfl rfl hi2.2⟩
  | tokenStep t =>
    exact ⟨hi.1, hi.2⟩

theorem reach_vault_inv {w : World} (h : Reach w) : VaultInv w := by
  induction h with
  | init self aA nm sym dec tok =>
    constructor
    · rfl
    · exact ⟨∅, fun a _ => rfl, rfl⟩
  | step hr hs ih => exact step_preserves hs ih

/-- C1: in every state reachable from the freshly initialized vault by any
    sequence of committed public operations (and arbitrary external
    custodian activity), `total_supply()` equals the sum of `balance_of(a)`
    over any finite set of accounts containing every account with a nonzero
    balance — in particular over the set of all accounts ever credited,
    since an account never written retains the absent-key default 0. -/
theorem C1_total_supply_eq_balance_sum (w : World) (hw : Reach w) (S : Finset Addr)
    (hS : ∀ a, a ∉ S → Vault.balance_of w.vault a = 0) :
    Vault.total_supply w.vault = ∑ a ∈ S, Vault.balance_of w.vault a :=
  SupplyInv_sum_any (reach_vault_inv hw).2 S hS

/-- A fresh deployment world for the C1 witness. -/
def tok0 : TokenStore := { balances := fun _ => none, totalSupply := none }

/-- The world of a freshly deployed, not yet initialized vault. -/
def w0 : World := { self := 0, vault := emptyVault, token := tok0 }

/-- Witness for `C1_total_supply_eq_balance_sum`: the freshly initialized
    vault, where the supply is 0 and the balance sum over the empty account
    set is 0. -/
theorem C1_total_supply_eq_balance_sum_witness :
    Vault.total_supply (commit w0 (Vault.initVault w0 5 "Test Vault" "TVAULT" 18)).1.vault
      = ∑ a ∈ (∅ : Finset Addr),
          Vault.balance_of
            (commit w0 (Vault.initVault w0 5 "Test Vault" "TVAULT" 18)).1.vault a :=
  C1_total_supply_eq_balance_sum _ (Reach.init 0 5 "Test Vault" "TVAULT" 18 tok0) ∅
    (fun a _ => rfl)
